import Mathlib

/-!
Shallow embedding of the kanban text-format core of `obsidian-base-kanban`
(`src/unnamed/part_000`): the scalar extractors, the natural-language date
resolver, the recurrence parser/serializer and next-occurrence calculator,
the card-line parser, the document segmenter and the board serializer.

Strings are modelled as `List Char` wrapped in Lean `String`s; the JavaScript
regular expressions of the source are implemented as dedicated scanning
functions with the same matching semantics (leftmost match, greedy/lazy
behaviour where it is observable, ASCII word/space classes).  JavaScript
`Date` values (the source always normalises them to midnight before use) are
modelled as integer day numbers counted from 1970-01-01, with the proleptic
Gregorian civil conversions; `getDay`'s Sunday=0 indexing becomes
`(n + 4) mod 7`.  The impure inputs of the source — the current clock used by
default-argument `new Date()` and the random `generateId()` — are made
explicit parameters (`today`, and a counter threaded through parsing).
-/

namespace BaseKanban

/-! ## JavaScript character classes and string helpers -/

/-- JavaScript `\s` (the ASCII part, which is all the source ever meets). -/
def jsIsSpace (c : Char) : Bool :=
  c = ' ' || c = '\t' || c = '\n' || c = '\r' || c = '\x0b' || c = '\x0c'

/-- JavaScript `\w`: `[A-Za-z0-9_]`. -/
def isWordChar (c : Char) : Bool :=
  ('a' ≤ c && c ≤ 'z') || ('A' ≤ c && c ≤ 'Z') || ('0' ≤ c && c ≤ '9') || c = '_'

/-- JavaScript `\d`. -/
def isDigitChar (c : Char) : Bool :=
  '0' ≤ c && c ≤ '9'

def trimLeftL (l : List Char) : List Char := l.dropWhile jsIsSpace

def trimRightL (l : List Char) : List Char := (l.reverse.dropWhile jsIsSpace).reverse

/-- JavaScript `String.prototype.trim`. -/
def jsTrimL (l : List Char) : List Char := trimRightL (trimLeftL l)

def jsTrim (s : String) : String := ⟨jsTrimL s.data⟩

/-- Is `pat` a prefix of `l`? -/
def isPrefixL (pat l : List Char) : Bool :=
  match pat, l with
  | [], _ => true
  | _ :: _, [] => false
  | p :: ps, c :: cs => p = c && isPrefixL ps cs

/-- First index at which `pat` occurs in `l` (JavaScript `indexOf`). -/
def indexOfL (l pat : List Char) : Option Nat :=
  match l with
  | [] => if pat.isEmpty then some 0 else none
  | _ :: cs =>
    if isPrefixL pat l then some 0
    else (indexOfL cs pat).map (· + 1)

/-- JavaScript `String.prototype.includes`. -/
def jsIncludes (s pat : String) : Bool := (indexOfL s.data pat.data).isSome

/-- JavaScript `String.prototype.startsWith`. -/
def jsStartsWith (s pat : String) : Bool := isPrefixL pat.data s.data

/-- JavaScript `replace` with a plain-string pattern: replace the first
occurrence only (identity when there is none). -/
def replaceFirstL (l pat repl : List Char) : List Char :=
  match indexOfL l pat with
  | some i => l.take i ++ repl ++ l.drop (i + pat.length)
  | none => l

def replaceFirst (s pat repl : String) : String := ⟨replaceFirstL s.data pat.data repl.data⟩

def toLowerL (l : List Char) : List Char := l.map Char.toLower

def jsToLower (s : String) : String := ⟨toLowerL s.data⟩

/-- The `Array.prototype.join`. -/
def jsJoin (sep : String) (xs : List String) : String :=
  match xs with
  | [] => ""
  | x :: rest => rest.foldl (fun acc y => acc ++ sep ++ y) x

/-- JavaScript `String.prototype.split` on a single-character separator. -/
def splitOnCharL (sep : Char) (l : List Char) : List (List Char) :=
  match l with
  | [] => [[]]
  | c :: cs =>
    let rest := splitOnCharL sep cs
    if c = sep then [] :: rest
    else match rest with
      | [] => [[c]]
      | r :: rs => (c :: r) :: rs

def splitLines (s : String) : List String :=
  (splitOnCharL '\n' s.data).map (⟨·⟩)

/-- The `String.prototype.padStart(2, '0')` generalised. -/
def padStartZero (width : Nat) (s : String) : String :=
  ⟨List.replicate (width - s.data.length) '0' ++ s.data⟩

/-- Decimal digits of a natural number, least significant first; fuel-based so
that the kernel can evaluate it. -/
def natDigitsRev (fuel n : Nat) : List Char :=
  match fuel with
  | 0 => []
  | fuel + 1 =>
    if n < 10 then [Char.ofNat (48 + n)]
    else Char.ofNat (48 + n % 10) :: natDigitsRev fuel (n / 10)

/-- Decimal digits of a natural number, as JavaScript `String(n)` renders it. -/
def natReprL (n : Nat) : List Char := (natDigitsRev (n + 1) n).reverse

/-- JavaScript `String(x)` for an integer-valued number. -/
def intRepr (n : Int) : String :=
  if n < 0 then ⟨'-' :: natReprL (-n).toNat⟩ else ⟨natReprL n.toNat⟩

/-- JavaScript `parseInt(s, 10)`: optional sign after leading whitespace, then
leading decimal digits; `none` models `NaN`. -/
def jsParseInt (s : String) : Option Int :=
  let l := trimLeftL s.data
  let (neg, l) : Bool × List Char :=
    match l with
    | '-' :: rest => (true, rest)
    | '+' :: rest => (false, rest)
    | _ => (false, l)
  let digits := l.takeWhile isDigitChar
  if digits.isEmpty then none
  else
    let v : Nat := digits.foldl (fun acc c => acc * 10 + (c.toNat - 48)) 0
    some (if neg then -(v : Int) else (v : Int))

/-! ## Calendar model (JavaScript `Date`, normalised to midnight)

Day numbers count from 1970-01-01.  `mkDate y m d` is the JavaScript
`new Date(y, m-1, d)` normalisation (months and days overflow linearly),
via the standard civil-from-days / days-from-civil conversions. -/

/-- Days from civil date, months `1..12`; day overflows linearly exactly as a
JavaScript `Date` normalises it. -/
def daysFromCivilCore (y m d : Int) : Int :=
  let yy := y - (if m ≤ 2 then 1 else 0)
  let era := yy.fdiv 400
  let yoe := yy - era * 400
  let mp := (m + 9).fmod 12
  let doy := (153 * mp + 2).fdiv 5 + d - 1
  let doe := yoe * 365 + yoe.fdiv 4 - yoe.fdiv 100 + doy
  era * 146097 + doe - 719468

/-- The `new Date(y, m-1, d)` as a day number (any month normalised first). -/
def mkDate (y m d : Int) : Int :=
  let y' := y + (m - 1).fdiv 12
  let m' := (m - 1).fmod 12 + 1
  daysFromCivilCore y' m' d

/-- Day number to civil `(year, month 1..12, day)`. -/
def civilFromDays (n : Int) : Int × Int × Int :=
  let z := n + 719468
  let era := z.fdiv 146097
  let doe := z - era * 146097
  let yoe := (doe - doe.fdiv 1460 + doe.fdiv 36524 - doe.fdiv 146096).fdiv 365
  let y := yoe + era * 400
  let doy := doe - (365 * yoe + yoe.fdiv 4 - yoe.fdiv 100)
  let mp := (5 * doy + 2).fdiv 153
  let d := doy - (153 * mp + 2).fdiv 5 + 1
  let m := mp + (if mp < 10 then 3 else -9)
  (y + (if m ≤ 2 then 1 else 0), m, d)

def dateYear (n : Int) : Int := (civilFromDays n).1
def dateMonth (n : Int) : Int := (civilFromDays n).2.1
def dateDay (n : Int) : Int := (civilFromDays n).2.2

/-- JavaScript `getDay()`: Sunday = 0 (1970-01-01 was a Thursday). -/
def getDayOfWeek (n : Int) : Int := (n + 4).fmod 7

/-- The `date.setDate(d)` (JavaScript normalises out-of-range days). -/
def setDate (n d : Int) : Int := mkDate (dateYear n) (dateMonth n) d

/-- The `date.setMonth(getMonth() + k)` keeping the day-of-month, with JavaScript
overflow normalisation. -/
def addMonths (n k : Int) : Int := mkDate (dateYear n) (dateMonth n + k) (dateDay n)

/-- The `date.setFullYear(getFullYear() + k)`. -/
def addYears (n k : Int) : Int := mkDate (dateYear n + k) (dateMonth n) (dateDay n)

/-- The `getDaysInMonth` from the source: `new Date(y, m+1, 0).getDate()`. -/
def getDaysInMonth (n : Int) : Int :=
  mkDate (dateYear n) (dateMonth n + 1) 1 - mkDate (dateYear n) (dateMonth n) 1

/-- The `formatISODate` from the source: `YYYY-MM-DD` with 2-padded month/day. -/
def formatISODate (n : Int) : String :=
  let year := dateYear n
  let month := padStartZero 2 (intRepr (dateMonth n))
  let day := padStartZero 2 (intRepr (dateDay n))
  intRepr year ++ "-" ++ month ++ "-" ++ day

/-! ## Regular-expression scanners

Each JavaScript regex of the source becomes a dedicated matcher.  A matcher
receives the character preceding the current position (for `\b`) and the
current suffix, and returns the matched prefix (with its original casing)
plus any captures.  `findFirstAux` realises leftmost-match `String.match`. -/

def findFirstAux (f : Option Char → List Char → Option α) :
    Option Char → List Char → Option α
  | _, [] => none
  | prev, c :: cs =>
    match f prev (c :: cs) with
    | some r => some r
    | none => findFirstAux f (some c) cs

def findFirst (f : Option Char → List Char → Option α) (l : List Char) : Option α :=
  findFirstAux f none l

/-- All non-overlapping matches, left to right (`/g` with `exec`); matchers
never match the empty string, and a fuel argument keeps the recursion
structural. -/
def findAllAux (f : Option Char → List Char → Option (List Char × κ)) :
    Nat → Option Char → List Char → List (List Char × κ)
  | 0, _, _ => []
  | _, _, [] => []
  | fuel + 1, prev, c :: cs =>
    match f prev (c :: cs) with
    | some (m, k) =>
      if m.length = 0 then findAllAux f fuel (some c) cs
      else (m, k) :: findAllAux f fuel (m.getLastD c) ((c :: cs).drop m.length)
    | none => findAllAux f fuel (some c) cs

def findAll (f : Option Char → List Char → Option (List Char × κ)) (l : List Char) :
    List (List Char × κ) :=
  findAllAux f (l.length + 1) none l

/-- Case-insensitive literal (pattern given in lowercase); returns the matched
prefix with its original casing and the rest. -/
def matchLitCI : List Char → List Char → Option (List Char × List Char)
  | [], l => some ([], l)
  | _ :: _, [] => none
  | p :: ps, c :: cs =>
    if c.toLower = p then (matchLitCI ps cs).map (fun (m, r) => (c :: m, r))
    else none

/-- Case-sensitive literal. -/
def matchLit : List Char → List Char → Option (List Char × List Char)
  | [], l => some ([], l)
  | _ :: _, [] => none
  | p :: ps, c :: cs =>
    if c = p then (matchLit ps cs).map (fun (m, r) => (c :: m, r))
    else none

/-- The `\s+`. -/
def matchSpaces1 (l : List Char) : Option (List Char × List Char) :=
  let sp := l.takeWhile jsIsSpace
  if sp.isEmpty then none else some (sp, l.drop sp.length)

/-- The `\d+`. -/
def matchDigits1 (l : List Char) : Option (List Char × List Char) :=
  let ds := l.takeWhile isDigitChar
  if ds.isEmpty then none else some (ds, l.drop ds.length)

/-- The `\b` when the pattern continues with a word character. -/
def boundaryOkBefore : Option Char → Bool
  | none => true
  | some c => !isWordChar c

/-- The `\b` after a match that ended in a word character. -/
def notWordAt : List Char → Bool
  | [] => true
  | c :: _ => !isWordChar c

/-- The `\bw1\s+w2...\s+wn\b`, case-insensitive (the `TODAY`, `NEXT_WEEK`,
`END_OF_MONTH`, `DAILY`-alternative … patterns). -/
def matchWordsGo : List String → List Char → Option (List Char × List Char)
  | [], l => some ([], l)
  | [w], l =>
    match matchLitCI w.data l with
    | some (m, r) => if notWordAt r then some (m, r) else none
    | none => none
  | w :: ws, l =>
    match matchLitCI w.data l with
    | some (m, r) =>
      match matchSpaces1 r with
      | some (sp, r2) =>
        (matchWordsGo ws r2).map (fun (m2, r3) => (m ++ sp ++ m2, r3))
      | none => none
    | none => none

def matchWordsCI (ws : List String) (prev : Option Char) (l : List Char) :
    Option (List Char × List Char) :=
  if boundaryOkBefore prev then matchWordsGo ws l else none

/-- Alternation of word sequences (e.g. `\b(?:every\s+day|daily)\b`): the
alternatives are tried in the order they appear in the source regex. -/
def matchWordAlts (alts : List (List String)) (prev : Option Char) (l : List Char) :
    Option (List Char × List Char) :=
  match alts with
  | [] => none
  | a :: rest =>
    match matchWordsCI a prev l with
    | some r => some r
    | none => matchWordAlts rest prev l

def dayNamePairs : List (String × Nat) :=
  [("sunday", 0), ("monday", 1), ("tuesday", 2), ("wednesday", 3),
   ("thursday", 4), ("friday", 5), ("saturday", 6)]

/-- The `DAY_NAMES` from the source. -/
def DAY_NAMES (s : String) : Option Nat :=
  (dayNamePairs.find? (fun p => p.1 = s)).map (·.2)

def DAY_NAMES_REVERSE (n : Int) : Option String :=
  (dayNamePairs.find? (fun p => (p.2 : Int) = n)).map (·.1)

/-- One weekday-name alternative `(sunday|monday|...)`, case-insensitive, in
source order; returns (matched, rest). -/
def matchDayName (l : List Char) : Option (List Char × List Char) :=
  (dayNamePairs.firstM (fun p => matchLitCI p.1.data l))

/-- The `\bkw\s+(dayname)\b` (`NEXT_DAY`, `THIS_DAY`, `LAST_DAY`): returns
(matched[0], captured day name with original casing). -/
def matchKwDay (kw : String) (prev : Option Char) (l : List Char) :
    Option (List Char × List Char) :=
  if boundaryOkBefore prev then
    match matchLitCI kw.data l with
    | some (m1, r1) =>
      match matchSpaces1 r1 with
      | some (sp, r2) =>
        match matchDayName r2 with
        | some (d, r3) => if notWordAt r3 then some (m1 ++ sp ++ d, d) else none
        | none => none
      | none => none
    | none => none
  else none

/-- The `unit` followed by `s?\b` with the backtracking the regex engine performs. -/
def matchUnitOptS (unit : String) (l : List Char) : Option (List Char × List Char) :=
  match matchLitCI unit.data l with
  | some (m, r) =>
    match r with
    | [] => some (m, [])
    | c :: cs =>
      if c.toLower = 's' then (if notWordAt cs then some (m ++ [c], cs) else none)
      else if isWordChar c then none
      else some (m, r)
  | none => none

/-- The `\bkw\s+(\d+)\s+units?\b` (`IN_X_DAYS`, `EVERY_X_WEEKS`, ...): returns
(matched[0], captured digits). -/
def matchKwNumUnit (kw unit : String) (prev : Option Char) (l : List Char) :
    Option (List Char × List Char) :=
  if boundaryOkBefore prev then
    match matchLitCI kw.data l with
    | some (m1, r1) =>
      match matchSpaces1 r1 with
      | some (sp1, r2) =>
        match matchDigits1 r2 with
        | some (ds, r3) =>
          match matchSpaces1 r3 with
          | some (sp2, r4) =>
            (matchUnitOptS unit r4).map (fun (mu, _) => (m1 ++ sp1 ++ ds ++ sp2 ++ mu, ds))
          | none => none
        | none => none
      | none => none
    | none => none
  else none

/-- The `\b(\d+)\s+days?\s+ago\b` (`X_DAYS_AGO`). -/
def matchDaysAgo (prev : Option Char) (l : List Char) :
    Option (List Char × List Char) :=
  if boundaryOkBefore prev then
    match matchDigits1 l with
    | some (ds, r1) =>
      match matchSpaces1 r1 with
      | some (sp1, r2) =>
        match matchLitCI "day".data r2 with
        | some (md, r3) =>
          let (md, r3) :=
            match r3 with
            | c :: cs => if c.toLower = 's' then (md ++ [c], cs) else (md, r3)
            | [] => (md, r3)
          match matchSpaces1 r3 with
          | some (sp2, r4) =>
            match matchLitCI "ago".data r4 with
            | some (ma, r5) =>
              if notWordAt r5 then some (ds ++ sp1 ++ md ++ sp2 ++ ma, ds) else none
            | none => none
          | none => none
        | none => none
      | none => none
    | none => none
  else none

/-- The greedy `(?:\s*,\s*(dayname))*` iterations of `EVERY_DAY_OF_WEEK`. -/
def edowIters : Nat → List Char → List (List Char) × List Char
  | 0, l => ([], l)
  | fuel + 1, l =>
    let ws1 := l.takeWhile jsIsSpace
    let r1 := l.drop ws1.length
    match r1 with
    | ',' :: r2 =>
      let ws2 := r2.takeWhile jsIsSpace
      let r3 := r2.drop ws2.length
      match matchDayName r3 with
      | some (dm, r4) =>
        let (iters, rest) := edowIters fuel r4
        ((ws1 ++ [','] ++ ws2 ++ dm) :: iters, rest)
      | none => ([], l)
    | _ => ([], l)

/-- The `\bevery\s+(dayname)(?:\s*,\s*(dayname))*\b`; when the final `\b` fails the
engine gives back the last iteration (after which the boundary always holds,
since an iteration starts with whitespace or a comma). -/
def matchEveryDOW (prev : Option Char) (l : List Char) :
    Option (List Char × Unit) :=
  if boundaryOkBefore prev then
    match matchLitCI "every".data l with
    | some (m1, r1) =>
      match matchSpaces1 r1 with
      | some (sp, r2) =>
        match matchDayName r2 with
        | some (d1, r3) =>
          let (iters, rest) := edowIters (r3.length + 1) r3
          if notWordAt rest then some (m1 ++ sp ++ d1 ++ iters.flatten, ())
          else if iters.isEmpty then none
          else some (m1 ++ sp ++ d1 ++ iters.dropLast.flatten, ())
        | none => none
      | none => none
    | none => none
  else none

/-- The day-word extraction the source performs on `match[0].toLowerCase()`
with `/\b(sunday|...)\b/g`. -/
def extractDayWords (l : List Char) : List String :=
  (findAll
    (fun prev suf =>
      if boundaryOkBefore prev then
        match matchDayName suf with
        | some (m, r) => if notWordAt r then some (m, ()) else none
        | none => none
      else none)
    l).map (fun p => ⟨p.1⟩)

/-! ## Natural-language date resolver (`parseNaturalDate` and helpers) -/

/-- The `getNextDayOfWeek` from the source. -/
def getNextDayOfWeek (fromDate targetDay : Int) (skipThisWeek : Bool) : Int :=
  let currentDay := getDayOfWeek fromDate
  let daysToAdd := targetDay - currentDay
  let daysToAdd :=
    if daysToAdd ≤ 0 || (skipThisWeek && daysToAdd < 7) then daysToAdd + 7 else daysToAdd
  fromDate + daysToAdd

/-- The `getLastDayOfWeek` from the source. -/
def getLastDayOfWeek (fromDate targetDay : Int) : Int :=
  let currentDay := getDayOfWeek fromDate
  let daysToSubtract := currentDay - targetDay
  let daysToSubtract := if daysToSubtract ≤ 0 then daysToSubtract + 7 else daysToSubtract
  fromDate - daysToSubtract

/-- Result type of `parseNaturalDate`: `{ date, matched }`. -/
abbrev NDResult := Option String × Option String

def pndEndOfMonth (today : Int) (t : List Char) : NDResult :=
  match findFirst (matchWordsCI ["end", "of", "month"]) t with
  | some (m, _) =>
    (some (formatISODate (mkDate (dateYear today) (dateMonth today + 1) 0)), some ⟨m⟩)
  | none => (none, none)

def pndEndOfWeek (today : Int) (t : List Char) : NDResult :=
  match findFirst (matchWordsCI ["end", "of", "week"]) t with
  | some (m, _) =>
    let date := getNextDayOfWeek today 0 false
    let date := if date = today && getDayOfWeek today ≠ 0 then date + 7 else date
    (some (formatISODate date), some ⟨m⟩)
  | none => pndEndOfMonth today t

def pndNextMonth (today : Int) (t : List Char) : NDResult :=
  match findFirst (matchWordsCI ["next", "month"]) t with
  | some (m, _) => (some (formatISODate (setDate (addMonths today 1) 1)), some ⟨m⟩)
  | none => pndEndOfWeek today t

def pndNextWeek (today : Int) (t : List Char) : NDResult :=
  match findFirst (matchWordsCI ["next", "week"]) t with
  | some (m, _) => (some (formatISODate (getNextDayOfWeek today 1 true)), some ⟨m⟩)
  | none => pndNextMonth today t

def pndDaysAgo (today : Int) (t : List Char) : NDResult :=
  match findFirst matchDaysAgo t with
  | some (m, ds) =>
    (some (formatISODate (today - (jsParseInt ⟨ds⟩).getD 0)), some ⟨m⟩)
  | none => pndNextWeek today t

def pndInMonths (today : Int) (t : List Char) : NDResult :=
  match findFirst (matchKwNumUnit "in" "month") t with
  | some (m, ds) =>
    (some (formatISODate (addMonths today ((jsParseInt ⟨ds⟩).getD 0))), some ⟨m⟩)
  | none => pndDaysAgo today t

def pndInWeeks (today : Int) (t : List Char) : NDResult :=
  match findFirst (matchKwNumUnit "in" "week") t with
  | some (m, ds) =>
    (some (formatISODate (today + 7 * ((jsParseInt ⟨ds⟩).getD 0))), some ⟨m⟩)
  | none => pndInMonths today t

def pndInDays (today : Int) (t : List Char) : NDResult :=
  match findFirst (matchKwNumUnit "in" "day") t with
  | some (m, ds) =>
    (some (formatISODate (today + ((jsParseInt ⟨ds⟩).getD 0))), some ⟨m⟩)
  | none => pndInWeeks today t

def pndLastDay (today : Int) (t : List Char) : NDResult :=
  match findFirst (matchKwDay "last") t with
  | some (m, d) =>
    match DAY_NAMES (jsToLower ⟨d⟩) with
    | some td => (some (formatISODate (getLastDayOfWeek today td)), some ⟨m⟩)
    | none => pndInDays today t
  | none => pndInDays today t

def pndThisDay (today : Int) (t : List Char) : NDResult :=
  match findFirst (matchKwDay "this") t with
  | some (m, d) =>
    match DAY_NAMES (jsToLower ⟨d⟩) with
    | some td => (some (formatISODate (getNextDayOfWeek today td false)), some ⟨m⟩)
    | none => pndLastDay today t
  | none => pndLastDay today t

def pndNextDay (today : Int) (t : List Char) : NDResult :=
  match findFirst (matchKwDay "next") t with
  | some (m, d) =>
    match DAY_NAMES (jsToLower ⟨d⟩) with
    | some td => (some (formatISODate (getNextDayOfWeek today td true)), some ⟨m⟩)
    | none => pndThisDay today t
  | none => pndThisDay today t

def pndYesterday (today : Int) (t : List Char) : NDResult :=
  match findFirst (matchWordsCI ["yesterday"]) t with
  | some (m, _) => (some (formatISODate (today - 1)), some ⟨m⟩)
  | none => pndNextDay today t

def pndTomorrow (today : Int) (t : List Char) : NDResult :=
  match findFirst (matchWordsCI ["tomorrow"]) t with
  | some (m, _) => (some (formatISODate (today + 1)), some ⟨m⟩)
  | none => pndYesterday today t

/-- The `parseNaturalDate` from the source; the reference date is the explicit
day-number parameter (the source defaults it to the clock). -/
def parseNaturalDate (text : String) (referenceDate : Int) : NDResult :=
  let today := referenceDate
  let t := text.data
  match findFirst (matchWordsCI ["today"]) t with
  | some (m, _) => (some (formatISODate today), some ⟨m⟩)
  | none => pndTomorrow today t

/-! ## Recurrence parser, serializer and next-occurrence calculator -/

structure RecurrencePattern where
  frequency : String
  interval : Option Int := none
  daysOfWeek : Option (List String) := none
  dayOfMonth : Option Int := none
  _rawPattern : Option String := none
deriving DecidableEq, Repr

/-- Result type of `parseRecurrence`: `{ pattern, matched }`. -/
abbrev RecResult := Option RecurrencePattern × Option String

def recEveryDOW (t : List Char) : RecResult :=
  match findFirst matchEveryDOW t with
  | some (m, _) =>
    let dayNames := extractDayWords (toLowerL m)
    (some { frequency := "weekly", daysOfWeek := some dayNames, _rawPattern := some ⟨m⟩ },
     some ⟨m⟩)
  | none =>
    match findFirst (matchWordAlts [["every", "weekday"], ["weekdays"]]) t with
    | some (m, _) =>
      (some { frequency := "weekly",
              daysOfWeek := some ["monday", "tuesday", "wednesday", "thursday", "friday"],
              _rawPattern := some ⟨m⟩ }, some ⟨m⟩)
    | none =>
      match findFirst (matchWordAlts [["every", "weekend"], ["weekends"]]) t with
      | some (m, _) =>
        (some { frequency := "weekly", daysOfWeek := some ["saturday", "sunday"],
                _rawPattern := some ⟨m⟩ }, some ⟨m⟩)
      | none => (none, none)

def recEveryX (t : List Char) : RecResult :=
  match findFirst (matchKwNumUnit "every" "day") t with
  | some (m, ds) =>
    (some { frequency := "daily", interval := some ((jsParseInt ⟨ds⟩).getD 0),
            _rawPattern := some ⟨m⟩ }, some ⟨m⟩)
  | none =>
    match findFirst (matchKwNumUnit "every" "week") t with
    | some (m, ds) =>
      (some { frequency := "weekly", interval := some ((jsParseInt ⟨ds⟩).getD 0),
              _rawPattern := some ⟨m⟩ }, some ⟨m⟩)
    | none =>
      match findFirst (matchKwNumUnit "every" "month") t with
      | some (m, ds) =>
        (some { frequency := "monthly", interval := some ((jsParseInt ⟨ds⟩).getD 0),
                _rawPattern := some ⟨m⟩ }, some ⟨m⟩)
      | none => recEveryDOW t

/-- The `parseRecurrence` from the source. -/
def parseRecurrence (text : String) : RecResult :=
  let t := text.data
  match findFirst (matchWordAlts [["every", "day"], ["daily"]]) t with
  | some (m, _) => (some { frequency := "daily", _rawPattern := some ⟨m⟩ }, some ⟨m⟩)
  | none =>
  match findFirst (matchWordAlts [["every", "week"], ["weekly"]]) t with
  | some (m, _) => (some { frequency := "weekly", _rawPattern := some ⟨m⟩ }, some ⟨m⟩)
  | none =>
  match findFirst (matchWordAlts [["every", "month"], ["monthly"]]) t with
  | some (m, _) => (some { frequency := "monthly", _rawPattern := some ⟨m⟩ }, some ⟨m⟩)
  | none =>
  match findFirst (matchWordAlts [["every", "year"], ["yearly"], ["annually"]]) t with
  | some (m, _) => (some { frequency := "yearly", _rawPattern := some ⟨m⟩ }, some ⟨m⟩)
  | none => recEveryX t

/-- The `interval` JavaScript truthiness coercion `pattern.interval || 1`. -/
def intervalOr1 (i : Option Int) : Int :=
  match i with
  | some n => if n = 0 then 1 else n
  | none => 1

def serializeFrequency (pattern : RecurrencePattern) : String :=
  let interval := intervalOr1 pattern.interval
  match pattern.frequency with
  | "daily" => if interval = 1 then "daily" else "every " ++ intRepr interval ++ " days"
  | "weekly" => if interval = 1 then "weekly" else "every " ++ intRepr interval ++ " weeks"
  | "monthly" => if interval = 1 then "monthly" else "every " ++ intRepr interval ++ " months"
  | "yearly" => if interval = 1 then "yearly" else "every " ++ intRepr interval ++ " years"
  | _ => "daily"

/-- The `serializeRecurrence` from the source. -/
def serializeRecurrence (pattern : RecurrencePattern) : String :=
  match pattern._rawPattern with
  | some raw => raw
  | none =>
    match pattern.daysOfWeek with
    | some days =>
      if days.length > 0 then
        if days.length = 5 &&
            ["monday", "tuesday", "wednesday", "thursday", "friday"].all days.contains then
          "weekdays"
        else if days.length = 2 && days.contains "saturday" && days.contains "sunday" then
          "weekends"
        else
          "every " ++ jsJoin ", " days
      else serializeFrequency pattern
    | none => serializeFrequency pattern

/-- The `getNextOccurrence` from the source.  `pattern.daysOfWeek.map(d =>
DAY_NAMES[d])` yields `undefined` for an invalid day name; the model drops such
entries (`filterMap`), which agrees with the source whenever every listed name
is a valid weekday — the hypothesis of every theorem below that uses this. -/
def getNextOccurrence (pattern : RecurrencePattern) (fromDate : Int) : Int :=
  let next := fromDate
  let interval := intervalOr1 pattern.interval
  match pattern.frequency with
  | "daily" => next + interval
  | "weekly" =>
    match pattern.daysOfWeek with
    | some l =>
      if l.length > 0 then
        let currentDay := getDayOfWeek next
        let targetDays : List Int :=
          List.insertionSort (· ≤ ·) (l.filterMap (fun d => (DAY_NAMES d).map Int.ofNat))
        match targetDays.find? (fun d => currentDay < d) with
        | none => next + (7 - currentDay + targetDays.headD 0)
        | some nextDay => next + (nextDay - currentDay)
      else next + 7 * interval
    | none => next + 7 * interval
  | "monthly" =>
    let next := addMonths next interval
    match pattern.dayOfMonth with
    | some dm => if dm = 0 then next else setDate next (min dm (getDaysInMonth next))
    | none => next
  | "yearly" => addYears next interval
  | _ => next

/-! ## Scalar extractors -/

/-- The `extractId` from the source: suffix match of `/\s*\^([\w-]+)\s*$/`,
returning `{ content, id }`. -/
def extractId (line : String) : String × Option String :=
  let rev := line.data.reverse
  let rev1 := rev.dropWhile jsIsSpace
  let idRev := rev1.takeWhile (fun c => isWordChar c || c = '-')
  if idRev.isEmpty then (line, none)
  else
    match rev1.drop idRev.length with
    | '^' :: restRev =>
      (⟨(restRev.dropWhile jsIsSpace).reverse⟩, some ⟨idRev.reverse⟩)
    | _ => (line, none)

inductive MetaValue
  | num (n : Int)
  | str (s : String)
deriving DecidableEq, Repr

/-- A JavaScript object used as a string-keyed bag: assignment keeps the
first-insertion position of an existing key and appends new keys
(`Object.entries` order). -/
abbrev Metadata := List (String × MetaValue)

def metaGet (m : Metadata) (k : String) : Option MetaValue :=
  (m.find? (fun p => p.1 = k)).map (·.2)

def metaSet (m : Metadata) (k : String) (v : MetaValue) : Metadata :=
  if (m.find? (fun p => p.1 = k)).isSome then
    m.map (fun p => if p.1 = k then (k, v) else p)
  else m ++ [(k, v)]

def metaDelete (m : Metadata) (k : String) : Metadata :=
  m.filter (fun p => !(p.1 = k))

/-- JavaScript truthiness of a metadata value (`''` and `0` are falsy). -/
def jsFalsyMetaV : MetaValue → Bool
  | .str s => s = ""
  | .num n => n = 0

def metaValueAsString : MetaValue → String
  | .str s => s
  | .num n => intRepr n

/-- The `/\[(\w+)::([^\]]+)\]/g`: matched[0] plus the key and value captures. -/
def matchBracketMeta (_prev : Option Char) (l : List Char) :
    Option (List Char × (List Char × List Char)) :=
  match l with
  | '[' :: r1 =>
    let key := r1.takeWhile isWordChar
    if key.isEmpty then none
    else
      match r1.drop key.length with
      | ':' :: ':' :: r2 =>
        let val := r2.takeWhile (fun c => !(c = ']'))
        if val.isEmpty then none
        else
          match r2.drop val.length with
          | ']' :: _ => some ('[' :: key ++ ':' :: ':' :: val ++ [']'], (key, val))
          | _ => none
      | _ => none
  | _ => none

/-- The `/progress::(\d+)%?/i`. -/
def matchProgressNB (_prev : Option Char) (l : List Char) :
    Option (List Char × List Char) :=
  match matchLitCI "progress::".data l with
  | some (m1, r1) =>
    match matchDigits1 r1 with
    | some (ds, r2) =>
      match r2 with
      | '%' :: _ => some (m1 ++ ds ++ ['%'], ds)
      | _ => some (m1 ++ ds, ds)
    | none => none
  | none => none

/-- The `/project::([^\s\]]+)/i`. -/
def matchProjectNB (_prev : Option Char) (l : List Char) :
    Option (List Char × List Char) :=
  match matchLitCI "project::".data l with
  | some (m1, r1) =>
    let v := r1.takeWhile (fun c => !jsIsSpace c && !(c = ']'))
    if v.isEmpty then none else some (m1 ++ v, v)
  | none => none

/-- The `parseInlineMetadata` from the source, returning `(cleanText, metadata)`. -/
def parseInlineMetadata (text : String) : String × Metadata :=
  let ms := findAll matchBracketMeta text.data
  let step := fun (st : List Char × Metadata) (m : List Char × (List Char × List Char)) =>
    let key := jsToLower ⟨m.2.1⟩
    let rawValue := jsTrim ⟨m.2.2⟩
    let md :=
      if key = "progress" then
        metaSet st.2 key (.num ((jsParseInt (replaceFirst rawValue "%" "")).getD 0))
      else metaSet st.2 key (.str rawValue)
    (jsTrimL (replaceFirstL st.1 m.1 []), md)
  let (cleanText, metadata) := ms.foldl step (text.data, ([] : Metadata))
  let (cleanText, metadata) :=
    match findFirst matchProgressNB cleanText with
    | some (m0, ds) =>
      if metaGet metadata "progress" = none then
        (jsTrimL (replaceFirstL cleanText m0 []),
         metaSet metadata "progress" (.num ((jsParseInt ⟨ds⟩).getD 0)))
      else (cleanText, metadata)
    | none => (cleanText, metadata)
  let (cleanText, metadata) :=
    match findFirst matchProjectNB cleanText with
    | some (m0, v) =>
      if jsFalsyMetaV ((metaGet metadata "project").getD (.str "")) then
        (jsTrimL (replaceFirstL cleanText m0 []), metaSet metadata "project" (.str ⟨v⟩))
      else (cleanText, metadata)
    | none => (cleanText, metadata)
  (⟨cleanText⟩, metadata)

/-- The hashtag regex: `#` followed by one or more word, hyphen or slash
characters, scanned globally. -/
def matchTag (_prev : Option Char) (l : List Char) :
    Option (List Char × List Char) :=
  match l with
  | '#' :: r1 =>
    let w := r1.takeWhile (fun c => isWordChar c || c = '-' || c = '/')
    if w.isEmpty then none else some ('#' :: w, w)
  | _ => none

/-- The `parseTags` from the source: the tag list is extracted but the text is
deliberately left unchanged. -/
def parseTags (text : String) : String × List String :=
  (text, (findAll matchTag text.data).map (fun p => (⟨p.2⟩ : String)))

/-- The `\d{n}` (fixed-width digit run). -/
def takeDigits (n : Nat) (l : List Char) : Option (List Char × List Char) :=
  let d := l.take n
  if d.length = n && d.all isDigitChar then some (d, l.drop n) else none

/-- The `/@(\d{4}-\d{2}-\d{2})(?:T(\d{2}:\d{2}))?/`: (matched[0], date, time?). -/
def matchAtDateTime (_prev : Option Char) (l : List Char) :
    Option (List Char × (List Char × Option (List Char))) :=
  match l with
  | '@' :: r =>
    match takeDigits 4 r with
    | some (y, r1) =>
      match r1 with
      | '-' :: r2 =>
        match takeDigits 2 r2 with
        | some (mo, r3) =>
          match r3 with
          | '-' :: r4 =>
            match takeDigits 2 r4 with
            | some (d, r5) =>
              let datePart := y ++ '-' :: mo ++ '-' :: d
              let timeOpt :=
                match r5 with
                | 'T' :: r6 =>
                  match takeDigits 2 r6 with
                  | some (h, r7) =>
                    match r7 with
                    | ':' :: r8 => (takeDigits 2 r8).map (fun p => h ++ ':' :: p.1)
                    | _ => none
                  | none => none
                | _ => none
              match timeOpt with
              | some t => some ('@' :: datePart ++ 'T' :: t, (datePart, some t))
              | none => some ('@' :: datePart, (datePart, none))
            | none => none
          | _ => none
        | none => none
      | _ => none
    | none => none
  | _ => none

/-- The `/@@(\d{2}:\d{2})/`. -/
def matchAtAtTime (_prev : Option Char) (l : List Char) :
    Option (List Char × List Char) :=
  match l with
  | '@' :: '@' :: r =>
    match takeDigits 2 r with
    | some (h, r1) =>
      match r1 with
      | ':' :: r2 =>
        (takeDigits 2 r2).map (fun p => ('@' :: '@' :: h ++ ':' :: p.1, h ++ ':' :: p.1))
      | _ => none
    | none => none
  | _ => none

/-- The `kw` then `\s+` then `\w+`, case-insensitive (for the `@natural-date`
prefix alternatives such as `next\s+\w+`). -/
def matchKwsWord (kws : List String) (l : List Char) : Option (List Char × List Char) :=
  match kws with
  | [] =>
    let w := l.takeWhile isWordChar
    if w.isEmpty then none else some (w, l.drop w.length)
  | k :: rest =>
    match matchLitCI k.data l with
    | some (m1, r1) =>
      match matchSpaces1 r1 with
      | some (sp, r2) => (matchKwsWord rest r2).map (fun p => (m1 ++ sp ++ p.1, p.2))
      | none => none
    | none => none

/-- The `in\s+\d+\s+\w+`. -/
def matchInNumWord (l : List Char) : Option (List Char × List Char) :=
  match matchLitCI "in".data l with
  | some (m1, r1) =>
    match matchSpaces1 r1 with
    | some (sp1, r2) =>
      match matchDigits1 r2 with
      | some (ds, r3) =>
        match matchSpaces1 r3 with
        | some (sp2, r4) =>
          let w := r4.takeWhile isWordChar
          if w.isEmpty then none else some (m1 ++ sp1 ++ ds ++ sp2 ++ w, r4.drop w.length)
        | none => none
      | none => none
    | none => none
  | none => none

/-- The `\d+\s+\w+\s+ago`. -/
def matchNumWordAgo (l : List Char) : Option (List Char × List Char) :=
  match matchDigits1 l with
  | some (ds, r1) =>
    match matchSpaces1 r1 with
    | some (sp1, r2) =>
      let w := r2.takeWhile isWordChar
      if w.isEmpty then none
      else
        match matchSpaces1 (r2.drop w.length) with
        | some (sp2, r3) =>
          match matchLitCI "ago".data r3 with
          | some (ma, r4) => some (ds ++ sp1 ++ w ++ sp2 ++ ma, r4)
          | none => none
        | none => none
    | none => none
  | none => none

/-- The `@natural-date` prefix
`/@(today|tomorrow|yesterday|next\s+\w+|this\s+\w+|last\s+\w+|in\s+\d+\s+\w+|\d+\s+\w+\s+ago|end\s+of\s+\w+)/i`;
returns (matched[0], captured group 1). -/
def matchAtNatural (_prev : Option Char) (l : List Char) :
    Option (List Char × List Char) :=
  match l with
  | '@' :: r =>
    let alt : Option (List Char × List Char) :=
      match matchLitCI "today".data r with
      | some (m, _) => some (m, [])
      | none =>
      match matchLitCI "tomorrow".data r with
      | some (m, _) => some (m, [])
      | none =>
      match matchLitCI "yesterday".data r with
      | some (m, _) => some (m, [])
      | none =>
      match matchKwsWord ["next"] r with
      | some (m, _) => some (m, [])
      | none =>
      match matchKwsWord ["this"] r with
      | some (m, _) => some (m, [])
      | none =>
      match matchKwsWord ["last"] r with
      | some (m, _) => some (m, [])
      | none =>
      match matchInNumWord r with
      | some (m, _) => some (m, [])
      | none =>
      match matchNumWordAgo r with
      | some (m, _) => some (m, [])
      | none =>
      match matchKwsWord ["end", "of"] r with
      | some (m, _) => some (m, [])
      | none => none
    alt.map (fun p => ('@' :: p.1, p.1))
  | _ => none

/-- The `/\[recur::([^\]]+)\]/` (case-sensitive). -/
def matchRecurMeta (_prev : Option Char) (l : List Char) :
    Option (List Char × List Char) :=
  match matchLit "[recur::".data l with
  | some (m1, r1) =>
    let v := r1.takeWhile (fun c => !(c = ']'))
    if v.isEmpty then none
    else
      match r1.drop v.length with
      | ']' :: _ => some (m1 ++ v ++ [']'], v)
      | _ => none
  | none => none

/-- The `/\[remind::([^\]]+)\]/` (case-sensitive). -/
def matchRemindMeta (_prev : Option Char) (l : List Char) :
    Option (List Char × List Char) :=
  match matchLit "[remind::".data l with
  | some (m1, r1) =>
    let v := r1.takeWhile (fun c => !(c = ']'))
    if v.isEmpty then none
    else
      match r1.drop v.length with
      | ']' :: _ => some (m1 ++ v ++ [']'], v)
      | _ => none
  | none => none

structure ParseDateResult where
  cleanText : String
  dueDate : Option String := none
  dueTime : Option String := none
  recurrence : Option RecurrencePattern := none
  reminderTime : Option String := none
deriving DecidableEq, Repr

/-- The `parseDate` from the source (`today` stands for the clock that the
source's defaulted `parseNaturalDate` reference date reads). -/
def parseDate (text : String) (parseNatural : Bool) (today : Int) : ParseDateResult :=
  let cleanText := text.data
  let (cleanText, dueDate, dueTime) :=
    match findFirst matchAtDateTime text.data with
    | some (m0, d, t) =>
      (jsTrimL (replaceFirstL cleanText m0 []), some (⟨d⟩ : String),
       t.map (fun u => (⟨u⟩ : String)))
    | none => (cleanText, none, none)
  let (cleanText, dueTime) :=
    match findFirst matchAtAtTime text.data with
    | some (m0, t) =>
      if dueTime.isNone then (jsTrimL (replaceFirstL cleanText m0 []), some (⟨t⟩ : String))
      else (cleanText, dueTime)
    | none => (cleanText, dueTime)
  let (cleanText, dueDate) :=
    if parseNatural && dueDate.isNone then
      match findFirst matchAtNatural text.data with
      | some (_, g1) =>
        match parseNaturalDate ⟨g1⟩ today with
        | (some d, some _) => (jsTrimL (replaceFirstL cleanText ('@' :: g1) []), some d)
        | _ => (cleanText, dueDate)
      | none =>
        match parseNaturalDate text today with
        | (some d, some mm) => (jsTrimL (replaceFirstL cleanText mm.data []), some d)
        | _ => (cleanText, dueDate)
    else (cleanText, dueDate)
  let (cleanText, recurrence) :=
    match parseRecurrence ⟨cleanText⟩ with
    | (some pattern, some recurMatched) =>
      (jsTrimL (replaceFirstL cleanText recurMatched.data []), some pattern)
    | _ => (cleanText, (none : Option RecurrencePattern))
  let (cleanText, recurrence) :=
    match findFirst matchRecurMeta cleanText with
    | some (m0, inner) =>
      if recurrence.isNone then
        let rec2 :=
          match (parseRecurrence ⟨inner⟩).1 with
          | some metaPattern => { metaPattern with _rawPattern := some (⟨inner⟩ : String) }
          | none => { frequency := "daily", _rawPattern := some (⟨inner⟩ : String) }
        (jsTrimL (replaceFirstL cleanText m0 []), some rec2)
      else (cleanText, recurrence)
    | none => (cleanText, recurrence)
  let (cleanText, reminderTime) :=
    match findFirst matchRemindMeta cleanText with
    | some (m0, inner) =>
      (jsTrimL (replaceFirstL cleanText m0 []), some (⟨inner⟩ : String))
    | none => (cleanText, (none : Option String))
  { cleanText := ⟨cleanText⟩, dueDate := dueDate, dueTime := dueTime,
    recurrence := recurrence, reminderTime := reminderTime }

/-! ## Card-line parser -/

structure Subtask where
  id : String
  text : String
  completed : Bool
deriving DecidableEq, Repr

structure KanbanCard where
  id : String
  title : String
  completed : Bool
  tags : List String
  dueDate : Option String := none
  dueTime : Option String := none
  recurrence : Option RecurrencePattern := none
  reminderTime : Option String := none
  notes : Option String := none
  notePath : Option String := none
  content : Option String := none
  subtasks : Option (List Subtask) := none
  metadata : Metadata := []
  _rawLine : String := ""
deriving DecidableEq, Repr

structure KanbanLane where
  id : String
  title : String
  cards : List KanbanCard
  _rawHeader : Option String := none
deriving DecidableEq, Repr

/-- The `generateId` in the source is `Math.random()`/`Date.now()` based; it is
modelled as an injected deterministic allocator over a counter threaded
through parsing (no parsed value ever depends on the generated text). -/
def generateId (ctr : Nat) : String :=
  "id" ++ (⟨natReprL ctr⟩ : String)

/-- The checkbox line regex `^(\s*)-\s*\[([ xX])\]\s*(.*)$` (no `/m` flag, so
a line containing a later newline cannot match): returns
(indent length, completed, match[3]). -/
def matchCheckbox (line : String) : Option (Nat × Bool × String) :=
  let l := line.data
  let ind := l.takeWhile jsIsSpace
  match l.drop ind.length with
  | '-' :: r1 =>
    let sp1 := r1.takeWhile jsIsSpace
    match r1.drop sp1.length with
    | '[' :: c :: ']' :: r2 =>
      if c = ' ' || c = 'x' || c = 'X' then
        let sp2 := r2.takeWhile jsIsSpace
        let rest := r2.drop sp2.length
        if rest.contains '\n' then none
        else some (ind.length, c.toLower = 'x', ⟨rest⟩)
      else none
    | _ => none
  | _ => none

/-- The note line regex `^\s*>\s?(.*)$`: returns match[1]. -/
def matchNote (line : String) : Option String :=
  let l := line.data
  let ws := l.takeWhile jsIsSpace
  match l.drop ws.length with
  | '>' :: r =>
    let r' :=
      match r with
      | c :: cs => if jsIsSpace c then cs else r
      | [] => []
    if r'.contains '\n' then none else some ⟨r'⟩
  | _ => none

/-- The `^\s*>` (used by the blank-line lookahead). -/
def startsNote (line : String) : Bool :=
  match line.data.dropWhile jsIsSpace with
  | '>' :: _ => true
  | _ => false

/-- The `^\s+-\s*\[` (used by the blank-line lookahead). -/
def startsIndentCheckbox (line : String) : Bool :=
  let ws := line.data.takeWhile jsIsSpace
  if ws.isEmpty then false
  else
    match line.data.drop ws.length with
    | '-' :: r =>
      match r.dropWhile jsIsSpace with
      | '[' :: _ => true
      | _ => false
    | _ => false

def lineIndentLen (line : String) : Nat :=
  (line.data.takeWhile jsIsSpace).length

/-- The first non-blank line after a blank decides whether the blank belongs
to the card's content block. -/
def qualifiesAfterBlank (cardIndent : Nat) (line : String) : Bool :=
  lineIndentLen line > cardIndent || startsNote line || startsIndentCheckbox line

def lookaheadMore (cardIndent : Nat) : List String → Bool
  | [] => false
  | l :: ls => if jsTrim l = "" then lookaheadMore cardIndent ls else qualifiesAfterBlank cardIndent l

structure CardScanState where
  notes : List String
  contentLines : List String
  subtasks : List Subtask
  endIndex : Nat
  ctr : Nat
deriving Repr

/-- The content-block scan of `parseCard` (lines after the card line). -/
def parseCardLoop (cardIndent : Nat) : List String → Nat → CardScanState → CardScanState
  | [], _, st => st
  | line :: rest, i, st =>
    if jsTrim line = "" then
      if lookaheadMore cardIndent rest then
        parseCardLoop cardIndent rest (i + 1)
          { st with contentLines := st.contentLines ++ [""], endIndex := i }
      else st
    else
      match matchNote line with
      | some noteText =>
        parseCardLoop cardIndent rest (i + 1)
          { st with notes := st.notes ++ [noteText],
                    contentLines := st.contentLines ++ [line], endIndex := i }
      | none =>
        match matchCheckbox line with
        | some (ind, comp, txt) =>
          if ind ≥ 1 && ind > cardIndent then
            let sub : Subtask :=
              { id := generateId st.ctr, text := jsTrim txt, completed := comp }
            parseCardLoop cardIndent rest (i + 1)
              { st with subtasks := st.subtasks ++ [sub],
                        contentLines := st.contentLines ++ [line], endIndex := i,
                        ctr := st.ctr + 1 }
          else if lineIndentLen line > cardIndent then
            parseCardLoop cardIndent rest (i + 1)
              { st with contentLines := st.contentLines ++ [line], endIndex := i }
          else st
        | none =>
          if lineIndentLen line > cardIndent then
            parseCardLoop cardIndent rest (i + 1)
              { st with contentLines := st.contentLines ++ [line], endIndex := i }
          else st

/-- The `parseCard` from the source: returns (card?, endIndex, next id counter). -/
def parseCard (lines : List String) (startIndex : Nat) (parseNaturalDates : Bool)
    (today : Int) (ctr : Nat) : Option KanbanCard × Nat × Nat :=
  let line := lines.getD startIndex ""
  match matchCheckbox line with
  | none => (none, startIndex, ctr)
  | some (cardIndent, completed, rest) =>
    let titleContent := jsTrim rest
    let (titleWithoutId, existingId) := extractId titleContent
    let (afterMetadata, metadata) := parseInlineMetadata titleWithoutId
    let (notePath, metadata) :=
      match metaGet metadata "note" with
      | some v =>
        if jsFalsyMetaV v then ((none : Option String), metadata)
        else (some (metaValueAsString v), metaDelete metadata "note")
      | none => (none, metadata)
    let tags := (parseTags afterMetadata).2
    let pd := parseDate afterMetadata parseNaturalDates today
    let st0 : CardScanState :=
      { notes := [], contentLines := [], subtasks := [], endIndex := startIndex, ctr := ctr }
    let st := parseCardLoop cardIndent (lines.drop (startIndex + 1)) (startIndex + 1) st0
    let (cardId, ctr') :=
      match existingId with
      | some i => (i, st.ctr)
      | none => (generateId st.ctr, st.ctr + 1)
    let card : KanbanCard :=
      { id := cardId
        title := afterMetadata
        completed := completed
        tags := tags
        dueDate := pd.dueDate
        dueTime := pd.dueTime
        recurrence := pd.recurrence
        reminderTime := pd.reminderTime
        notes := if st.notes.length > 0 then some (jsJoin "\n" st.notes) else none
        notePath := notePath
        content := if st.contentLines.length > 0 then some (jsJoin "\n" st.contentLines) else none
        subtasks := if st.subtasks.length > 0 then some st.subtasks else none
        metadata := metadata
        _rawLine := line }
    (some card, st.endIndex, ctr')

/-- The lane-header regex `^##\s+(.+)$` (`.` cannot match a newline, and the
greedy `\s+` gives one whitespace character back to `(.+)` when nothing else
is left). -/
def matchLaneHeader (line : String) : Option String :=
  match line.data with
  | '#' :: '#' :: r =>
    let ws := r.takeWhile jsIsSpace
    if ws.isEmpty then none
    else
      let tail := r.drop ws.length
      if tail.isEmpty then
        if ws.length ≥ 2 && !(ws.getLastD ' ' = '\n') then some ⟨[ws.getLastD ' ']⟩
        else none
      else if tail.contains '\n' then none
      else some ⟨tail⟩
  | _ => none

/-- The card-scanning loop of `parseLane`. -/
def parseLaneCards (lines : List String) (today : Int) :
    Nat → Nat → Nat → List KanbanCard → List KanbanCard × Nat
  | 0, _, ctr, acc => (acc, ctr)
  | fuel + 1, i, ctr, acc =>
    if i < lines.length then
      let line := lines.getD i ""
      if jsStartsWith (jsTrim line) "- [" then
        match parseCard lines i true today ctr with
        | (some card, endIndex, ctr') =>
          parseLaneCards lines today fuel (endIndex + 1) ctr' (acc ++ [card])
        | (none, _, _) => parseLaneCards lines today fuel (i + 1) ctr acc
      else parseLaneCards lines today fuel (i + 1) ctr acc
    else (acc, ctr)

/-- The `parseLane` from the source. -/
def parseLane (content : String) (today : Int) (ctr : Nat) : Option KanbanLane × Nat :=
  let lines := splitLines content
  let headerLine := lines.getD 0 ""
  match matchLaneHeader headerLine with
  | none => (none, ctr)
  | some title1 =>
    let (titleWithoutId, existingId) := extractId (jsTrim title1)
    let (laneId, ctr) :=
      match existingId with
      | some i => (i, ctr)
      | none => (generateId ctr, ctr + 1)
    let (cards, ctr') := parseLaneCards lines today (lines.length + 1) 1 ctr []
    (some { id := laneId, title := titleWithoutId, cards := cards,
            _rawHeader := some headerLine }, ctr')

/-! ## JSON (the `JSON.parse` / `JSON.stringify` platform builtins)

Numbers keep their source lexeme (no claim depends on numeric value or on
re-rendering of non-integer numbers). -/

inductive Json
  | null
  | bool (b : Bool)
  | num (lexeme : String)
  | str (s : String)
  | arr (elems : List Json)
  | obj (fields : List (String × Json))
deriving Repr, BEq

def jsonWsChar (c : Char) : Bool := c = ' ' || c = '\t' || c = '\n' || c = '\r'

def skipJsonWs (l : List Char) : List Char := l.dropWhile jsonWsChar

def hexVal (c : Char) : Option Nat :=
  if '0' ≤ c && c ≤ '9' then some (c.toNat - 48)
  else if 'a' ≤ c && c ≤ 'f' then some (c.toNat - 87)
  else if 'A' ≤ c && c ≤ 'F' then some (c.toNat - 55)
  else none

/-- JSON string body after the opening quote. -/
def parseJsonString : Nat → List Char → Option (List Char × List Char)
  | 0, _ => none
  | _, [] => none
  | fuel + 1, c :: cs =>
    if c = '"' then some ([], cs)
    else if c = '\\' then
      match cs with
      | [] => none
      | e :: cs2 =>
        if e = 'u' then
          match cs2 with
          | a :: b :: c3 :: d :: cs3 =>
            match hexVal a, hexVal b, hexVal c3, hexVal d with
            | some ha, some hb, some hc, some hd =>
              let code := ((ha * 16 + hb) * 16 + hc) * 16 + hd
              (parseJsonString fuel cs3).map (fun p => (Char.ofNat code :: p.1, p.2))
            | _, _, _, _ => none
          | _ => none
        else
          let dec : Option Char :=
            if e = '"' then some '"'
            else if e = '\\' then some '\\'
            else if e = '/' then some '/'
            else if e = 'b' then some (Char.ofNat 8)
            else if e = 'f' then some (Char.ofNat 12)
            else if e = 'n' then some '\n'
            else if e = 'r' then some '\r'
            else if e = 't' then some '\t'
            else none
          match dec with
          | some d => (parseJsonString fuel cs2).map (fun p => (d :: p.1, p.2))
          | none => none
    else if c.toNat < 32 then none
    else (parseJsonString fuel cs).map (fun p => (c :: p.1, p.2))

/-- Strict JSON number lexeme at the head of the input. -/
def parseJsonNumber (l : List Char) : Option (List Char × List Char) :=
  let (sign, r) : List Char × List Char :=
    match l with
    | '-' :: rest => (['-'], rest)
    | _ => ([], l)
  let intPart : Option (List Char × List Char) :=
    match r with
    | '0' :: rest => some (['0'], rest)
    | c :: _ =>
      if '1' ≤ c && c ≤ '9' then
        let ds := r.takeWhile isDigitChar
        some (ds, r.drop ds.length)
      else none
    | [] => none
  match intPart with
  | none => none
  | some (ip, r1) =>
    let (fp, r2) : List Char × List Char :=
      match r1 with
      | '.' :: rest =>
        let ds := rest.takeWhile isDigitChar
        if ds.isEmpty then ([], r1) else ('.' :: ds, rest.drop ds.length)
      | _ => ([], r1)
    if fp.isEmpty && (match r1 with | '.' :: _ => true | _ => false) then none
    else
      let (ep, r3) : List Char × List Char :=
        match r2 with
        | e :: rest =>
          if e = 'e' || e = 'E' then
            let (sg, rest2) : List Char × List Char :=
              match rest with
              | s :: rr => if s = '+' || s = '-' then ([s], rr) else ([], rest)
              | [] => ([], rest)
            let ds := rest2.takeWhile isDigitChar
            if ds.isEmpty then ([], r2) else (e :: sg ++ ds, rest2.drop ds.length)
          else ([], r2)
        | [] => ([], r2)
      if ep.isEmpty && (match r2 with | e :: _ => e = 'e' || e = 'E' | _ => false) then none
      else some (sign ++ ip ++ fp ++ ep, r3)

mutual

def parseJsonValue : Nat → List Char → Option (Json × List Char)
  | 0, _ => none
  | fuel + 1, l =>
    match skipJsonWs l with
    | '{' :: r =>
      (match skipJsonWs r with
       | '}' :: r2 => some (Json.obj [], r2)
       | _ => (parseJsonMembers fuel r).map (fun p => (Json.obj p.1, p.2)))
    | '[' :: r =>
      (match skipJsonWs r with
       | ']' :: r2 => some (Json.arr [], r2)
       | _ => (parseJsonElems fuel r).map (fun p => (Json.arr p.1, p.2)))
    | '"' :: r =>
      (parseJsonString (r.length + 1) r).map (fun p => (Json.str ⟨p.1⟩, p.2))
    | 't' :: 'r' :: 'u' :: 'e' :: r => some (Json.bool true, r)
    | 'f' :: 'a' :: 'l' :: 's' :: 'e' :: r => some (Json.bool false, r)
    | 'n' :: 'u' :: 'l' :: 'l' :: r => some (Json.null, r)
    | r => (parseJsonNumber r).map (fun p => (Json.num ⟨p.1⟩, p.2))

def parseJsonMembers : Nat → List Char → Option (List (String × Json) × List Char)
  | 0, _ => none
  | fuel + 1, l =>
    match skipJsonWs l with
    | '"' :: r =>
      match parseJsonString (r.length + 1) r with
      | some (key, r1) =>
        (match skipJsonWs r1 with
         | ':' :: r2 =>
           match parseJsonValue fuel r2 with
           | some (v, r3) =>
             (match skipJsonWs r3 with
              | ',' :: r4 =>
                (parseJsonMembers fuel r4).map (fun p => ((⟨key⟩, v) :: p.1, p.2))
              | '}' :: r4 => some ([(⟨key⟩, v)], r4)
              | _ => none)
           | none => none
         | _ => none)
      | none => none
    | _ => none

def parseJsonElems : Nat → List Char → Option (List Json × List Char)
  | 0, _ => none
  | fuel + 1, l =>
    match parseJsonValue fuel l with
    | some (v, r) =>
      (match skipJsonWs r with
       | ',' :: r2 => (parseJsonElems fuel r2).map (fun p => (v :: p.1, p.2))
       | ']' :: r2 => some ([v], r2)
       | _ => none)
    | none => none

end

/-- The `JSON.parse`, `none` modelling a thrown `SyntaxError`. -/
def jsonParse (s : String) : Option Json :=
  match parseJsonValue (s.data.length + 1) s.data with
  | some (v, rest) => if (skipJsonWs rest).isEmpty then some v else none
  | none => none

def hexDigitChar (n : Nat) : Char :=
  if n < 10 then Char.ofNat (48 + n) else Char.ofNat (87 + n)

def jsonEscapeChar (c : Char) : List Char :=
  if c = '"' then ['\\', '"']
  else if c = '\\' then ['\\', '\\']
  else if c = '\n' then ['\\', 'n']
  else if c = '\r' then ['\\', 'r']
  else if c = '\t' then ['\\', 't']
  else if c.toNat = 8 then ['\\', 'b']
  else if c.toNat = 12 then ['\\', 'f']
  else if c.toNat < 32 then
    ['\\', 'u', '0', '0', hexDigitChar (c.toNat / 16), hexDigitChar (c.toNat % 16)]
  else [c]

def jsonQuote (s : String) : String :=
  ⟨'"' :: (s.data.flatMap jsonEscapeChar) ++ ['"']⟩

def indentSpaces (n : Nat) : String := ⟨List.replicate n ' '⟩

/-- The `JSON.stringify(x, null, 2)` with explicit fuel (any fuel at least the
nesting depth gives the JavaScript output). -/
def jsonStringifyGo : Nat → Nat → Json → String
  | 0, _, _ => ""
  | fuel + 1, indent, j =>
    match j with
    | Json.null => "null"
    | Json.bool b => if b then "true" else "false"
    | Json.num lex => lex
    | Json.str s => jsonQuote s
    | Json.arr [] => "[]"
    | Json.arr xs =>
      let items := xs.map
        (fun e => indentSpaces (indent + 2) ++ jsonStringifyGo fuel (indent + 2) e)
      "[\n" ++ jsJoin ",\n" items ++ "\n" ++ indentSpaces indent ++ "]"
    | Json.obj [] => "\x7b\x7d"
    | Json.obj fs =>
      let items := fs.map
        (fun f => indentSpaces (indent + 2) ++ jsonQuote f.1 ++ ": " ++
          jsonStringifyGo fuel (indent + 2) f.2)
      "\x7b\n" ++ jsJoin ",\n" items ++ "\n" ++ indentSpaces indent ++ "\x7d"

mutual

def sizeJson : Json → Nat
  | .null => 1
  | .bool _ => 1
  | .num _ => 1
  | .str _ => 1
  | .arr xs => 1 + sizeJsonList xs
  | .obj fs => 1 + sizeJsonFields fs

def sizeJsonList : List Json → Nat
  | [] => 0
  | x :: xs => sizeJson x + sizeJsonList xs

def sizeJsonFields : List (String × Json) → Nat
  | [] => 0
  | f :: fs => sizeJson f.2 + sizeJsonFields fs

end

def jsonStringify (indent : Nat) (j : Json) : String :=
  jsonStringifyGo (sizeJson j + 1) indent j

/-! ## Document segmenter and board assembly -/

def FRONTMATTER_KEY : String := "kanban-plugin"

/-- The `l.slice(a, b)` with JavaScript clamping. -/
def sliceL (l : List Char) (a b : Nat) : List Char := (l.take b).drop a

/-- The `extractFrontmatter`: the anchored regex
`^(---\s*\n[\s\S]*?\n---\s*\n?)`, with the engine's backtracking over which
newline of the whitespace run after the opening `---` the literal `\n`
consumes (later newlines preferred), the lazy search for the closing
`\n---`, and the greedy whitespace tail.  Returns `(frontmatter, body)`. -/
def extractFrontmatter (content : String) : String × String :=
  let l := content.data
  if isPrefixL "---".data l then
    let w := (l.drop 3).takeWhile jsIsSpace
    let nlIdxs := (List.range w.length).filterMap
      (fun k => if w.getD k ' ' = '\n' then some (3 + k) else none)
    let tryAt := fun (i : Nat) =>
      match indexOfL (l.drop (i + 1)) "\n---".data with
      | some k =>
        let q := i + 1 + k
        let tailWs := (l.drop (q + 4)).takeWhile jsIsSpace
        some (q + 4 + tailWs.length)
      | none => none
    match nlIdxs.reverse.firstM tryAt with
    | some e => (⟨l.take e⟩, ⟨l.drop e⟩)
    | none => ("", content)
  else ("", content)

/-- The `ensureKanbanFrontmatter`; the `$1` replacement regex `^(---\s*\n)` makes
the literal `\n` the last newline of the whitespace run after `---`. -/
def ensureKanbanFrontmatter (frontmatter : String) : String :=
  if frontmatter = "" then "---\n" ++ FRONTMATTER_KEY ++ ": basic\n---\n\n"
  else if !jsIncludes frontmatter FRONTMATTER_KEY then
    let l := frontmatter.data
    if isPrefixL "---".data l then
      let w := (l.drop 3).takeWhile jsIsSpace
      let nlIdxs := (List.range w.length).filterMap
        (fun k => if w.getD k ' ' = '\n' then some (3 + k) else none)
      match nlIdxs.getLast? with
      | some i =>
        ⟨l.take (i + 1) ++ (FRONTMATTER_KEY ++ ": basic\n").data ++ l.drop (i + 1)⟩
      | none => frontmatter
    else frontmatter
  else frontmatter

/-- The `/^## .+$/gm` over the body: the matched header lines with their character
indices. -/
def laneMatchesAux : List String → Nat → List (Nat × String)
  | [], _ => []
  | x :: xs, pos =>
    let rest := laneMatchesAux xs (pos + x.data.length + 1)
    if jsStartsWith x "## " && x.data.length ≥ 4 then (pos, x) :: rest else rest

def laneMatches (body : String) : List (Nat × String) :=
  laneMatchesAux (splitLines body) 0

/-- The `/%% kanban:settings[\s\S]*?%%/` on the body: `(start, end)` char span. -/
def settingsBlockSpan (body : String) : Option (Nat × Nat) :=
  let l := body.data
  match indexOfL l "%% kanban:settings".data with
  | some s =>
    match indexOfL (l.drop (s + 18)) "%%".data with
    | some k => some (s, s + 18 + k + 2)
    | none => none
  | none => none

/-- Does `l` begin with the closing fence of the settings regex:
three backticks, `\s*`, `%%`? -/
def settingsCloseOk (l : List Char) : Bool :=
  match matchLit "```".data l with
  | some (_, r) => (matchLit "%%".data (r.dropWhile jsIsSpace)).isSome
  | none => false

/-- Split off the lazy `([\s\S]*?)` payload before the first valid closing
fence. -/
def splitAtFence : Nat → List Char → List Char → Option (List Char)
  | 0, _, _ => none
  | fuel + 1, acc, l =>
    if settingsCloseOk l then some acc.reverse
    else
      match l with
      | [] => none
      | c :: cs => splitAtFence fuel (c :: acc) cs

/-- The capture of
`/%% kanban:settings\s*(three backticks)(?:json)?\s*([\s\S]*?)\s*(three
backticks)\s*%%/`, scanning occurrences of the literal left to right as the
engine does. -/
def parseSettingsScan : Nat → List Char → Option String
  | 0, _ => none
  | fuel + 1, l =>
    match l with
    | [] => none
    | _ :: cs =>
      let failNext := fun (_ : Unit) => parseSettingsScan fuel cs
      if isPrefixL "%% kanban:settings".data l then
        let r := l.drop 18
        let r1 := r.dropWhile jsIsSpace
        match matchLit "```".data r1 with
        | some (_, r2) =>
          let r3 := match matchLit "json".data r2 with
            | some (_, rr) => rr
            | none => r2
          let r4 := r3.dropWhile jsIsSpace
          match splitAtFence (r4.length + 1) [] r4 with
          | some pre => some ⟨trimRightL pre⟩
          | none => failNext ()
        | none => failNext ()
      else failNext ()

/-- The `parseSettings` from the source: the JSON payload of the settings block,
an empty record when the block is absent or its JSON fails to parse (the
source swallows the `JSON.parse` exception). -/
def parseSettings (content : String) : Json :=
  match parseSettingsScan (content.data.length + 1) content.data with
  | some payload => (jsonParse payload).getD (Json.obj [])
  | none => Json.obj []

/-- The `/^##\s/`. -/
def startsHeader (line : String) : Bool :=
  match line.data with
  | '#' :: '#' :: c :: _ => jsIsSpace c
  | _ => false

/-- The `/^\s*-\s*\[/`. -/
def startsCardLike (line : String) : Bool :=
  match line.data.dropWhile jsIsSpace with
  | '-' :: r =>
    (match r.dropWhile jsIsSpace with
     | '[' :: _ => true
     | _ => false)
  | _ => false

def flceLookahead : List String → Bool
  | [] => false
  | x :: xs =>
    if startsCardLike x || startsNote x then true
    else if !(jsTrim x = "") then false
    else flceLookahead xs

def flceLoop : List String → Nat → Nat → Nat
  | [], _, last => last
  | x :: xs, i, last =>
    if startsHeader x || startsCardLike x || startsNote x then flceLoop xs (i + 1) i
    else if jsTrim x = "" then
      if flceLookahead xs then flceLoop xs (i + 1) i else flceLoop xs (i + 1) last
    else flceLoop xs (i + 1) last

/-- The `findLaneContentEnd` from the source. -/
def findLaneContentEnd (sectionContent : String) : Nat :=
  let lines := splitLines sectionContent
  let lastIdx := flceLoop lines 0 0
  ((lines.take (lastIdx + 1)).map (fun s => s.data.length + 1)).sum

/-- The `/^##\s+Archive\s*$/i`. -/
def isArchiveHeader (headerText : String) : Bool :=
  match headerText.data with
  | '#' :: '#' :: r =>
    let ws := r.takeWhile jsIsSpace
    if ws.isEmpty then false
    else
      match matchLitCI "archive".data (r.drop ws.length) with
      | some (_, rest) => rest.all jsIsSpace
      | none => false
  | _ => false

structure KanbanBoard where
  lanes : List KanbanLane
  archive : List KanbanCard
  settings : Json
  _frontmatter : String := ""
  _headerContent : String := ""
  _footerContent : String := ""
  _preSettingsContent : String := ""
deriving Repr, BEq

structure LaneAcc where
  lanes : List KanbanLane
  archive : List KanbanCard
  preSettingsContent : String
  ctr : Nat
deriving Repr

/-- The lane-section loop of `parseKanbanBoard`. -/
def assembleLanes (body : List Char) (today : Int) (settingsStart : Int) :
    List (Nat × String) → LaneAcc → LaneAcc
  | [], acc => acc
  | (start, headerText) :: rest, acc =>
    let isLastLane := rest.isEmpty
    let endPos : Nat :=
      match rest with
      | (nextStart, _) :: _ => nextStart
      | [] => if settingsStart > (start : Int) then settingsStart.toNat else body.length
    let sectionContent : String := ⟨sliceL body start endPos⟩
    let acc :=
      if isLastLane && settingsStart > (start : Int) then
        let contentEnd := findLaneContentEnd sectionContent
        let trailingContent := jsTrim ⟨sectionContent.data.drop contentEnd⟩
        if !(trailingContent = "") then { acc with preSettingsContent := trailingContent }
        else acc
      else acc
    let acc :=
      if isArchiveHeader headerText then
        match parseLane sectionContent today acc.ctr with
        | (some archiveLane, ctr') => { acc with archive := archiveLane.cards, ctr := ctr' }
        | (none, ctr') => { acc with ctr := ctr' }
      else
        match parseLane sectionContent today acc.ctr with
        | (some lane, ctr') => { acc with lanes := acc.lanes ++ [lane], ctr := ctr' }
        | (none, ctr') => { acc with ctr := ctr' }
    assembleLanes body today settingsStart rest acc

/-- The `parseKanbanBoard` from the source (`today` models the clock, `ctr` the
identifier allocator). -/
def parseKanbanBoard (markdown : String) (today : Int) (ctr : Nat) : KanbanBoard :=
  let (frontmatter, body) := extractFrontmatter markdown
  let bl := body.data
  let lm := laneMatches body
  let span := settingsBlockSpan body
  let settingsStart : Int := match span with | some (s, _) => (s : Int) | none => -1
  let settingsEnd : Int := match span with | some (_, e) => (e : Int) | none => -1
  let headerContent : String :=
    if lm.length > 0 then jsTrim ⟨sliceL bl 0 (lm.headD (0, "")).1⟩
    else if settingsStart > 0 then jsTrim ⟨sliceL bl 0 settingsStart.toNat⟩
    else jsTrim body
  let acc := assembleLanes bl today settingsStart lm
    { lanes := [], archive := [], preSettingsContent := "", ctr := ctr }
  let footerContent : String :=
    if settingsEnd > 0 then jsTrim ⟨bl.drop settingsEnd.toNat⟩
    else if lm.length > 0 then
      let lastLaneIndex := ((lm.getLast?).getD (0, "")).1
      let lastLaneContent : String := ⟨bl.drop lastLaneIndex⟩
      let contentEnd := findLaneContentEnd lastLaneContent
      let trailingContent := jsTrim ⟨lastLaneContent.data.drop contentEnd⟩
      if !(trailingContent = "") then trailingContent else ""
    else ""
  let settings := parseSettings body
  { lanes := acc.lanes
    archive := acc.archive
    settings := settings
    _frontmatter := frontmatter
    _headerContent := headerContent
    _footerContent := footerContent
    _preSettingsContent := acc.preSettingsContent }

/-! ## Serializers -/

def jsTruthyStr : Option String → Bool
  | some s => !(s = "")
  | none => false

/-- The recurrence-word guard of `serializeCard`:
`/\b(daily|weekly|monthly|yearly|every\s)/i`. -/
def matchRecurWord (prev : Option Char) (l : List Char) : Option (List Char × Unit) :=
  if boundaryOkBefore prev then
    match matchLitCI "daily".data l with
    | some (m, _) => some (m, ())
    | none =>
    match matchLitCI "weekly".data l with
    | some (m, _) => some (m, ())
    | none =>
    match matchLitCI "monthly".data l with
    | some (m, _) => some (m, ())
    | none =>
    match matchLitCI "yearly".data l with
    | some (m, _) => some (m, ())
    | none =>
    match matchLitCI "every".data l with
    | some (m, r) =>
      (match r with
       | c :: _ => if jsIsSpace c then some (m ++ [c], ()) else none
       | [] => none)
    | none => none
  else none

def hasRecurWord (s : String) : Bool := (findFirst matchRecurWord s.data).isSome

/-- The `metadataToAdd` accumulation of `serializeCard` (every `includes`
check is against `card.title`, the value `content` still holds then). -/
def serializeCardMetadataToAdd (card : KanbanCard) : List String :=
  let content := card.title
  let metadataToAdd : List String := []
  let metadataToAdd :=
    if !(metaGet card.metadata "progress" = none) && !jsIncludes content "progress::" then
      metadataToAdd ++
        ["[progress::" ++ metaValueAsString ((metaGet card.metadata "progress").getD (.str "")) ++ "%]"]
    else metadataToAdd
  let metadataToAdd :=
    if !jsFalsyMetaV ((metaGet card.metadata "project").getD (.str "")) &&
        !jsIncludes content "project::" && !jsIncludes content "[project::" then
      metadataToAdd ++
        ["[project::" ++ metaValueAsString ((metaGet card.metadata "project").getD (.str "")) ++ "]"]
    else metadataToAdd
  let metadataToAdd :=
    if jsTruthyStr card.notePath && !jsIncludes content "note::" then
      metadataToAdd ++ ["[note::" ++ card.notePath.getD "" ++ "]"]
    else metadataToAdd
  let metadataToAdd :=
    if card.recurrence.isSome && !jsIncludes content "recur::" && !hasRecurWord content then
      metadataToAdd ++
        ["[recur::" ++ serializeRecurrence (card.recurrence.getD { frequency := "daily" }) ++ "]"]
    else metadataToAdd
  let metadataToAdd :=
    if jsTruthyStr card.reminderTime && !jsIncludes content "remind::" then
      metadataToAdd ++ ["[remind::" ++ card.reminderTime.getD "" ++ "]"]
    else metadataToAdd
  metadataToAdd ++ (card.metadata.filterMap (fun p =>
    if !(p.1 = "progress") && !(p.1 = "project") && !jsIncludes content (p.1 ++ "::") then
      some ("[" ++ p.1 ++ "::" ++ metaValueAsString p.2 ++ "]")
    else none))

/-- The card-line text of `serializeCard` before the identifier marker. -/
def serializeCardContentBase (card : KanbanCard) : String :=
  let content := card.title
  let metadataToAdd := serializeCardMetadataToAdd card
  let content :=
    if metadataToAdd.length > 0 then content ++ " " ++ jsJoin " " metadataToAdd else content
  if !jsIncludes content "@" then
    match card.dueDate, card.dueTime with
    | some d, some t => content ++ " @" ++ d ++ "T" ++ t
    | some d, none => content ++ " @" ++ d
    | none, some t => content ++ " @@" ++ t
    | none, none => content
  else content

/-- The `serializeCard` from the source. -/
def serializeCard (card : KanbanCard) (includeId : Bool) : String :=
  let checkbox := if card.completed then "[x]" else "[ ]"
  let content := serializeCardContentBase card
  let content := if includeId then content ++ " ^" ++ card.id else content
  let result := "- " ++ checkbox ++ " " ++ content
  if jsTruthyStr card.content && !jsTruthyStr card.notePath then
    result ++ "\n" ++ card.content.getD ""
  else
    let contentParts : List String :=
      (match card.subtasks with
       | some subs =>
         if subs.length > 0 then
           subs.map (fun s => "\t- " ++ (if s.completed then "[x]" else "[ ]") ++ " " ++ s.text)
         else []
       | none => []) ++
      (if jsTruthyStr card.notes && !jsTruthyStr card.notePath then
        (splitLines (card.notes.getD "")).map (fun line => "\t> " ++ line)
      else [])
    if contentParts.length > 0 then result ++ "\n" ++ jsJoin "\n" contentParts else result

/-- The `serializeLane` from the source. -/
def serializeLane (lane : KanbanLane) (includeIds : Bool) : String :=
  let idMarker := if includeIds then " ^" ++ lane.id else ""
  let lines := ["## " ++ lane.title ++ idMarker, ""] ++
    lane.cards.map (fun c => serializeCard c includeIds) ++ [""]
  jsJoin "\n" lines

/-- The `Object.keys(x).length` for a `JSON.parse` result. -/
def jsObjectKeysLength : Json → Nat
  | Json.obj fs => fs.length
  | Json.arr xs => xs.length
  | Json.str s => s.data.length
  | _ => 0

/-- The `serializeSettings` from the source. -/
def serializeSettings (settings : Json) : String :=
  if jsObjectKeysLength settings = 0 then ""
  else
    "\n%% kanban:settings\n```json\n" ++ jsonStringify 0 settings ++ "\n```\n%%\n"

/-- The `serializeArchive` from the source. -/
def serializeArchive (archive : List KanbanCard) (includeIds : Bool) : String :=
  if archive.length = 0 then ""
  else
    jsJoin "\n" (["## Archive", ""] ++ archive.map (fun c => serializeCard c includeIds) ++ [""])

/-- The `serializeKanbanBoard` from the source. -/
def serializeKanbanBoard (board : KanbanBoard) : String :=
  let parts : List String := [ensureKanbanFrontmatter board._frontmatter]
  let parts :=
    if !(board._headerContent = "") then parts ++ [board._headerContent, ""] else parts
  let parts := parts ++ board.lanes.map (fun lane => serializeLane lane true)
  let parts :=
    if board.archive.length > 0 then parts ++ [serializeArchive board.archive true] else parts
  let parts :=
    if !(board._preSettingsContent = "") then parts ++ [board._preSettingsContent, ""]
    else parts
  let settingsBlock := serializeSettings board.settings
  let parts := if !(settingsBlock = "") then parts ++ [settingsBlock] else parts
  let parts := if !(board._footerContent = "") then parts ++ [board._footerContent] else parts
  jsJoin "\n" parts

/-! ## Newline-freeness and line decomposition -/

/-- The `s` contains no newline (all card fields parsed out of a single document
line satisfy this). -/
def noNl (s : String) : Prop := '\n' ∉ s.data

instance (s : String) : Decidable (noNl s) := by unfold noNl; infer_instance

/-- The first line of a serialized card (what the document stores as the
card's own line). -/
def firstLine (s : String) : String := (splitLines s).headD ""

def strEndsWith (s suffix : String) : Bool :=
  isPrefixL suffix.data.reverse s.data.reverse

theorem data_append (a b : String) : (a ++ b).data = a.data ++ b.data := rfl

theorem noNl_append {a b : String} (ha : noNl a) (hb : noNl b) : noNl (a ++ b) := by
  unfold noNl at *
  rw [data_append]
  simp only [List.mem_append]
  rintro (h | h)
  · exact ha h
  · exact hb h

theorem isPrefixL_self_append (p r : List Char) : isPrefixL p (p ++ r) = true := by
  induction p with
  | nil => rfl
  | cons c cs ih => simp [isPrefixL, ih]

theorem strEndsWith_append (a b : String) : strEndsWith (a ++ b) b = true := by
  unfold strEndsWith
  rw [data_append, List.reverse_append]
  exact isPrefixL_self_append _ _

theorem splitOnCharL_not_mem {sep : Char} {l : List Char} (h : sep ∉ l) :
    splitOnCharL sep l = [l] := by
  induction l with
  | nil => rfl
  | cons c cs ih =>
    simp only [List.mem_cons, not_or] at h
    simp [splitOnCharL, Ne.symm h.1, ih h.2]

theorem splitOnCharL_append_cons {sep : Char} {xs : List Char} (ys : List Char)
    (h : sep ∉ xs) :
    splitOnCharL sep (xs ++ sep :: ys) = xs :: splitOnCharL sep ys := by
  induction xs with
  | nil => simp [splitOnCharL]
  | cons c cs ih =>
    simp only [List.mem_cons, not_or] at h
    rw [List.cons_append]
    simp only [splitOnCharL, if_neg (by simpa using Ne.symm h.1)]
    rw [ih h.2]

theorem firstLine_of_noNl {s : String} (h : noNl s) : firstLine s = s := by
  unfold firstLine splitLines
  rw [splitOnCharL_not_mem h]
  rfl

theorem firstLine_append_line {a : String} (b : String) (ha : noNl a) :
    firstLine (a ++ "\n" ++ b) = a := by
  unfold firstLine splitLines
  have : (a ++ "\n" ++ b).data = a.data ++ '\n' :: b.data := by
    rw [data_append, data_append]
    simp [List.append_assoc]
  rw [this, splitOnCharL_append_cons _ ha]
  rfl

theorem noNl_foldl_join {sep : String} (hsep : noNl sep) :
    ∀ (xs : List String) (acc : String), noNl acc → (∀ x ∈ xs, noNl x) →
      noNl (xs.foldl (fun acc y => acc ++ sep ++ y) acc)
  | [], _, hacc, _ => hacc
  | y :: ys, acc, hacc, h =>
    noNl_foldl_join hsep ys (acc ++ sep ++ y)
      (noNl_append (noNl_append hacc hsep) (h y (by simp)))
      (fun z hz => h z (by simp [hz]))

theorem noNl_jsJoin {sep : String} {xs : List String} (hsep : noNl sep)
    (h : ∀ x ∈ xs, noNl x) : noNl (jsJoin sep xs) := by
  match xs with
  | [] => intro hc; cases hc
  | x :: rest =>
    exact noNl_foldl_join hsep rest x (h x (by simp)) (fun z hz => h z (by simp [hz]))

/-! ## Newline-freeness of the serialized card line -/

/-- The strings out of which `serializeCard` builds the card's own line
(besides its title): identifier, note path, reminder, due date/time, the
serialized recurrence, and the metadata keys and values. -/
def cardLineBits (c : KanbanCard) : List String :=
  [c.id, c.notePath.getD "", c.reminderTime.getD "", c.dueDate.getD "", c.dueTime.getD "",
   serializeRecurrence (c.recurrence.getD { frequency := "daily" })] ++
  c.metadata.map (fun p => p.1) ++ c.metadata.map (fun p => metaValueAsString p.2)

theorem forall_mem_ite {P : α → Prop} {c : Prop} [Decidable c] {a b : List α}
    (ha : ∀ x ∈ a, P x) (hb : ∀ x ∈ b, P x) : ∀ x ∈ (if c then a else b), P x := by
  split
  · exact ha
  · exact hb

theorem forall_mem_append2 {P : α → Prop} {a b : List α}
    (ha : ∀ x ∈ a, P x) (hb : ∀ x ∈ b, P x) : ∀ x ∈ a ++ b, P x := by
  intro x hx
  rcases List.mem_append.mp hx with h | h
  · exact ha x h
  · exact hb x h

theorem noNl_metaGetD {c : KanbanCard} (hb : ∀ s ∈ cardLineBits c, noNl s) (k : String) :
    noNl (metaValueAsString ((metaGet c.metadata k).getD (.str ""))) := by
  cases hmg : metaGet c.metadata k with
  | none => decide
  | some v =>
    unfold metaGet at hmg
    cases hf : c.metadata.find? (fun p => p.1 = k) with
    | none => rw [hf] at hmg; cases hmg
    | some p =>
      rw [hf] at hmg
      have hv : p.2 = v := by simpa using hmg
      have hmem : p ∈ c.metadata := List.mem_of_find?_eq_some hf
      have : metaValueAsString p.2 ∈ cardLineBits c := by
        unfold cardLineBits
        exact List.mem_append.mpr (Or.inr (List.mem_map_of_mem _ hmem))
      simpa [hv] using hb _ this

theorem forall_mem_ite_app_one {P : α → Prop} {c : Prop} [Decidable c] {l : List α} {s : α}
    (hl : ∀ x ∈ l, P x) (hs : P s) : ∀ x ∈ (if c then l ++ [s] else l), P x := by
  apply forall_mem_ite
  · apply forall_mem_append2 hl
    intro x hx
    rw [List.mem_singleton] at hx
    subst hx
    exact hs
  · exact hl

theorem noNl_metadataToAdd {c : KanbanCard} (hb : ∀ s ∈ cardLineBits c, noNl s) :
    ∀ x ∈ serializeCardMetadataToAdd c, noNl x := by
  have hnone : ∀ x ∈ ([] : List String), noNl x := by intro x hx; cases hx
  have hnp : noNl (c.notePath.getD "") := hb _ (by simp [cardLineBits])
  have hrm : noNl (c.reminderTime.getD "") := hb _ (by simp [cardLineBits])
  have hrec : noNl (serializeRecurrence (c.recurrence.getD { frequency := "daily" })) :=
    hb _ (by simp [cardLineBits])
  unfold serializeCardMetadataToAdd
  apply forall_mem_append2
  · exact forall_mem_ite_app_one
      (forall_mem_ite_app_one
        (forall_mem_ite_app_one
          (forall_mem_ite_app_one
            (forall_mem_ite_app_one hnone
              (noNl_append (noNl_append (by decide) (noNl_metaGetD hb _)) (by decide)))
            (noNl_append (noNl_append (by decide) (noNl_metaGetD hb _)) (by decide)))
          (noNl_append (noNl_append (by decide) hnp) (by decide)))
        (noNl_append (noNl_append (by decide) hrec) (by decide)))
      (noNl_append (noNl_append (by decide) hrm) (by decide))
  · intro x hx
    rw [List.mem_filterMap] at hx
    obtain ⟨p, hp, hf⟩ := hx
    have hk : noNl p.1 := by
      apply hb
      unfold cardLineBits
      exact List.mem_append.mpr
        (Or.inl (List.mem_append.mpr (Or.inr (List.mem_map_of_mem _ hp))))
    have hv : noNl (metaValueAsString p.2) := by
      apply hb
      unfold cardLineBits
      exact List.mem_append.mpr (Or.inr (List.mem_map_of_mem _ hp))
    split at hf
    · rw [Option.some_inj] at hf
      subst hf
      exact noNl_append
        (noNl_append (noNl_append (noNl_append (by decide) hk) (by decide)) hv) (by decide)
    · cases hf

theorem noNl_serializeCardContentBase {c : KanbanCard}
    (hb : ∀ s ∈ cardLineBits c, noNl s) (ht : noNl c.title) :
    noNl (serializeCardContentBase c) := by
  have hdd : noNl (c.dueDate.getD "") := hb (c.dueDate.getD "") (by simp [cardLineBits])
  have hdt : noNl (c.dueTime.getD "") := hb (c.dueTime.getD "") (by simp [cardLineBits])
  have hj : noNl (jsJoin " " (serializeCardMetadataToAdd c)) :=
    noNl_jsJoin (by decide) (noNl_metadataToAdd hb)
  have h1 : noNl (if (serializeCardMetadataToAdd c).length > 0 then
      c.title ++ " " ++ jsJoin " " (serializeCardMetadataToAdd c) else c.title) := by
    split
    · exact noNl_append (noNl_append ht (by decide)) hj
    · exact ht
  simp only [serializeCardContentBase]
  set content1 := (if (serializeCardMetadataToAdd c).length > 0 then
      c.title ++ " " ++ jsJoin " " (serializeCardMetadataToAdd c) else c.title) with hc1
  cases hdo : c.dueDate with
  | some d =>
    have hd : noNl d := by rw [hdo] at hdd; exact hdd
    cases hto : c.dueTime with
    | some t =>
      have htt : noNl t := by rw [hto] at hdt; exact hdt
      split
      · exact noNl_append (noNl_append (noNl_append (noNl_append h1 (by decide)) hd)
          (by decide)) htt
      · exact h1
    | none =>
      split
      · exact noNl_append (noNl_append h1 (by decide)) hd
      · exact h1
  | none =>
    cases hto : c.dueTime with
    | some t =>
      have htt : noNl t := by rw [hto] at hdt; exact hdt
      split
      · exact noNl_append (noNl_append h1 (by decide)) htt
      · exact h1
    | none =>
      split
      · exact h1
      · exact h1

theorem strEndsWith_of_data {s t : String} (x : List Char) (h : s.data = x ++ t.data) :
    strEndsWith s t = true := by
  unfold strEndsWith
  rw [h, List.reverse_append]
  exact isPrefixL_self_append _ _


theorem firstLine_ite_block {cond : Prop} [Decidable cond] (b : String) {r0 : String}
    (h : noNl r0) : firstLine (if cond then r0 ++ "\n" ++ b else r0) = r0 := by
  split
  · exact firstLine_append_line b h
  · exact firstLine_of_noNl h

theorem serializeCard_line_endsWith_id {c : KanbanCard}
    (hb : ∀ s ∈ cardLineBits c, noNl s) (ht : noNl c.title) :
    strEndsWith (firstLine (serializeCard c true)) (" ^" ++ c.id) = true := by
  have hid : noNl c.id := hb c.id (by simp [cardLineBits])
  have hbase : noNl (serializeCardContentBase c) := noNl_serializeCardContentBase hb ht
  have hcb : noNl (if c.completed then "[x]" else "[ ]") := by
    cases c.completed <;> decide
  have hr0 : noNl ("- " ++ (if c.completed then "[x]" else "[ ]") ++ " " ++
      (serializeCardContentBase c ++ " ^" ++ c.id)) :=
    noNl_append (noNl_append (noNl_append (by decide) hcb) (by decide))
      (noNl_append (noNl_append hbase (by decide)) hid)
  have hend : strEndsWith ("- " ++ (if c.completed then "[x]" else "[ ]") ++ " " ++
      (serializeCardContentBase c ++ " ^" ++ c.id)) (" ^" ++ c.id) = true := by
    apply strEndsWith_of_data
      (x := ("- " ++ (if c.completed then "[x]" else "[ ]") ++ " ").data ++
        (serializeCardContentBase c).data)
    simp [data_append, List.append_assoc]
  simp only [serializeCard, if_true]
  split
  · rw [firstLine_append_line _ hr0]
    exact hend
  · rw [firstLine_ite_block _ hr0]
    exact hend



theorem parseCard_id_of_marker
    (lines : List String) (i : Nat) (today : Int) (ctr : Nat)
    (c : KanbanCard) (e ctr' : Nat) (ind : Nat) (comp : Bool) (rest idStr : String)
    (hmc : matchCheckbox (lines.getD i "") = some (ind, comp, rest))
    (hid : (extractId (jsTrim rest)).2 = some idStr)
    (hp : parseCard lines i true today ctr = (some c, e, ctr')) :
    c.id = idStr := by
  unfold parseCard at hp
  dsimp only [] at hp
  rw [hmc] at hp
  dsimp only [] at hp
  rcases hE : extractId (jsTrim rest) with ⟨tw, ex⟩
  rw [hE] at hid hp
  dsimp only [] at hid
  subst hid
  rcases hM : parseInlineMetadata tw with ⟨am, md⟩
  rw [hM] at hp
  dsimp only [] at hp
  rcases hN : (match metaGet md "note" with
    | some v =>
      if jsFalsyMetaV v then ((none : Option String), md)
      else (some (metaValueAsString v), metaDelete md "note")
    | none => (none, md)) with ⟨np, md2⟩
  rw [hN] at hp
  dsimp only [] at hp
  simp only [Prod.mk.injEq, Option.some.injEq] at hp
  obtain ⟨hc, -, -⟩ := hp
  subst hc
  rfl



/-- C2: a card line carrying a `^id` marker keeps that identifier through
parsing (`parseCard` stores the extracted marker as `card.id`), and
re-serializing the card after replacing only its title emits a card line that
still ends with the same ` ^id` marker. -/
theorem C2_identifier_preserved :
    (∀ (lines : List String) (i : Nat) (today : Int) (ctr : Nat) (c : KanbanCard)
      (e ctr' ind : Nat) (comp : Bool) (rest idStr : String),
      matchCheckbox (lines.getD i "") = some (ind, comp, rest) →
      (extractId (jsTrim rest)).2 = some idStr →
      parseCard lines i true today ctr = (some c, e, ctr') →
      c.id = idStr) ∧
    (∀ (c : KanbanCard) (t : String), (∀ s ∈ cardLineBits c, noNl s) → noNl t →
      strEndsWith (firstLine (serializeCard { c with title := t } true))
        (" ^" ++ c.id) = true) := by
  constructor
  · intro lines i today ctr c e ctr' ind comp rest idStr hmc hid hp
    exact parseCard_id_of_marker lines i today ctr c e ctr' ind comp rest idStr hmc hid hp
  · intro c t hb htt
    have hb' : ∀ s ∈ cardLineBits { c with title := t }, noNl s := hb
    exact serializeCard_line_endsWith_id hb' htt

/-- Witness for C2 at the card line `- [ ] Foo ^abc1`, editing the title to
`Edited title`. -/
theorem C2_identifier_preserved_witness :
    parseCard ["- [ ] Foo ^abc1"] 0 true 0 0 =
      (some { id := "abc1", title := "Foo", completed := false, tags := [],
              _rawLine := "- [ ] Foo ^abc1" }, 0, 0) ∧
    ({ id := "abc1", title := "Foo", completed := false, tags := [],
       _rawLine := "- [ ] Foo ^abc1" } : KanbanCard).id = "abc1" ∧
    strEndsWith (firstLine (serializeCard
      { ({ id := "abc1", title := "Foo", completed := false, tags := [],
           _rawLine := "- [ ] Foo ^abc1" } : KanbanCard) with title := "Edited title" } true))
      (" ^" ++ "abc1") = true := by
  refine ⟨by decide, ?_, ?_⟩
  · exact C2_identifier_preserved.1 ["- [ ] Foo ^abc1"] 0 0 0
      { id := "abc1", title := "Foo", completed := false, tags := [],
        _rawLine := "- [ ] Foo ^abc1" } 0 0 0 false "Foo ^abc1" "abc1"
      (by decide) (by decide) (by decide)
  · exact C2_identifier_preserved.2
      { id := "abc1", title := "Foo", completed := false, tags := [],
        _rawLine := "- [ ] Foo ^abc1" } "Edited title" (by decide) (by decide)



/-- C3 counterexample: with the reference date Wednesday 2025-01-15
(`getDayOfWeek = 3`), the natural-language resolver maps "this monday" to
2025-01-20, not to 2025-01-13 as the claim states (`getNextDayOfWeek` adds a
week whenever the target weekday is not strictly later in the week,
regardless of the `skipThisWeek` flag). -/
theorem C3_this_monday_counterexample :
    getDayOfWeek (mkDate 2025 1 15) = 3 ∧
    (parseNaturalDate "this monday" (mkDate 2025 1 15)).1 = some "2025-01-20" ∧
    ¬(parseNaturalDate "this monday" (mkDate 2025 1 15)).1 = some "2025-01-13" := by
  exact ⟨by decide, by decide, by decide⟩

/-- C3 amended: with reference Wednesday 2025-01-15, "next monday" resolves to
2025-01-20 and "this monday" also resolves to 2025-01-20 (never to a past
date, and never to the reference date itself). -/
theorem C3_next_and_this_monday :
    parseNaturalDate "next monday" (mkDate 2025 1 15) =
      (some "2025-01-20", some "next monday") ∧
    parseNaturalDate "this monday" (mkDate 2025 1 15) =
      (some "2025-01-20", some "this monday") := by
  exact ⟨by decide, by decide⟩

/-- C4 counterexample: parsing the card line `- [ ] Water plants [remind::1h]`
leaves the dedicated `reminderTime` field unset (the inline-metadata pass
strips the bracketed tag first), contradicting the claim that it holds
`"1h"`. -/
theorem C4_reminder_counterexample :
    (parseCard ["- [ ] Water plants [remind::1h]"] 0 true 0 0).1.map
      KanbanCard.reminderTime = some none ∧
    ¬(parseCard ["- [ ] Water plants [remind::1h]"] 0 true 0 0).1.map
      KanbanCard.reminderTime = some (some "1h") := by
  exact ⟨by decide, by decide⟩

/-- C4 amended: for a card line with a bracketed `[remind::duration]` tag the
duration is kept verbatim as an opaque string, but in the metadata bag under
the key `remind` (the bracketed form is consumed by `parseInlineMetadata`
before `parseDate` runs), while `reminderTime` stays unset. -/
theorem C4_reminder_in_metadata_bag :
    parseCard ["- [ ] Water plants [remind::1h]"] 0 true 0 0 =
      (some { id := "id0", title := "Water plants", completed := false, tags := [],
              metadata := [("remind", MetaValue.str "1h")],
              _rawLine := "- [ ] Water plants [remind::1h]" }, 0, 1) ∧
    metaGet [("remind", MetaValue.str "1h")] "remind" = some (MetaValue.str "1h") := by
  exact ⟨by decide, by decide⟩

/-- C5: parsing "every 2 weeks" yields a weekly rule with interval 2 retaining
the phrase verbatim, and serializing that rule reproduces "every 2 weeks". -/
theorem C5_recurrence_roundtrip :
    parseRecurrence "every 2 weeks" =
      (some { frequency := "weekly", interval := some 2,
              _rawPattern := some "every 2 weeks" },
       some "every 2 weeks") ∧
    serializeRecurrence { frequency := "weekly", interval := some 2,
                          _rawPattern := some "every 2 weeks" } = "every 2 weeks" := by
  exact ⟨by decide, by decide⟩

/-- C7: parsing `- [ ] Buy milk #errand [progress::40%] [project::Home]`
yields tags `["errand"]`, integer progress 40 (the `%` stripped), project
`"Home"`, and a title that still contains `#errand` textually. -/
theorem C7_metadata_tag_independence :
    parseCard ["- [ ] Buy milk #errand [progress::40%] [project::Home]"] 0 true 0 0 =
      (some { id := "id0", title := "Buy milk #errand", completed := false,
              tags := ["errand"],
              metadata := [("progress", MetaValue.num 40), ("project", MetaValue.str "Home")],
              _rawLine := "- [ ] Buy milk #errand [progress::40%] [project::Home]" },
       0, 1) ∧
    jsIncludes "Buy milk #errand" "#errand" = true := by
  exact ⟨by decide, by decide⟩

/-- C8: a card followed by an indented subtask, a blank line, a second
indented subtask and then a new top-level checkbox attaches both subtasks and
the blank line to the first card's content block and nothing to the second
card; when the lookahead after a blank finds no qualifying content the blank
ends the block. -/
theorem C8_blank_line_grouping :
    (parseLane "## Lane ^L\n- [ ] A ^a\n\t- [ ] s1\n\n\t- [ ] s2\n- [ ] B ^b" 0 0).1 =
      some { id := "L", title := "Lane",
             cards := [
               { id := "a", title := "A", completed := false, tags := [],
                 content := some "\t- [ ] s1\n\n\t- [ ] s2",
                 subtasks := some [{ id := "id0", text := "s1", completed := false },
                                   { id := "id1", text := "s2", completed := false }],
                 _rawLine := "- [ ] A ^a" },
               { id := "b", title := "B", completed := false, tags := [],
                 _rawLine := "- [ ] B ^b" }],
             _rawHeader := some "## Lane ^L" } ∧
    (parseCard ["- [ ] A", "\t- [ ] s1", "", "not indented"] 0 true 0 0).1.map
      KanbanCard.content = some (some "\t- [ ] s1") ∧
    (parseCard ["- [ ] A", "\t- [ ] s1", "", "not indented"] 0 true 0 0).2.1 = 1 := by
  exact ⟨by decide, by decide, by decide⟩

/-- C10 counterexample: the title stored for
`- [ ] Call mom progress::40%` is `"Call mom"`: the legacy unbracketed
`progress::N%` form is also stripped from the title, not only the trailing
`^id` marker and the bracketed `[key::value]` tags as the claim states. -/
theorem C10_unbracketed_progress_counterexample :
    (parseCard ["- [ ] Call mom progress::40%"] 0 true 0 0).1.map
      KanbanCard.title = some "Call mom" ∧
    ¬(parseCard ["- [ ] Call mom progress::40%"] 0 true 0 0).1.map
      KanbanCard.title = some "Call mom progress::40%" := by
  exact ⟨by decide, by decide⟩



/-- C10 amended: the stored card title equals the checkbox remainder after
the trailing `^id` extraction and the full inline-metadata pass — bracketed
`[key::value]` tags and the legacy unbracketed `progress::N%` /
`project::value` forms — while the cleaned text computed by the date
extractor is discarded: `@date` markers, natural-language date phrases and
bare recurrence phrases stay verbatim in the title even though they are also
extracted into the structured fields. -/
theorem C10_title_is_metadata_stripped_remainder :
    (∀ (lines : List String) (i : Nat) (pnd : Bool) (today : Int) (ctr : Nat)
       (c : KanbanCard) (e ctr' ind : Nat) (comp : Bool) (rest : String),
      matchCheckbox (lines.getD i "") = some (ind, comp, rest) →
      parseCard lines i pnd today ctr = (some c, e, ctr') →
      c.title = (parseInlineMetadata (extractId (jsTrim rest)).1).1) ∧
    ((parseCard ["- [ ] Pay rent @2025-03-10 daily ^r1"] 0 true 0 0).1.map
        (fun c => (c.title, c.dueDate, c.recurrence.map RecurrencePattern._rawPattern)) =
      some ("Pay rent @2025-03-10 daily", some "2025-03-10", some (some "daily"))) := by
  constructor
  · intro lines i pnd today ctr c e ctr' ind comp rest hmc hp
    unfold parseCard at hp
    dsimp only [] at hp
    rw [hmc] at hp
    dsimp only [] at hp
    simp only [Prod.mk.injEq, Option.some.injEq] at hp
    obtain ⟨hc, -, -⟩ := hp
    subst hc
    rfl
  · exact by decide

/-- Witness for the universal part of C10 at
`- [ ] Pay rent @2025-03-10 daily ^r1`. -/
theorem C10_title_witness :
    ({ id := "r1", title := "Pay rent @2025-03-10 daily", completed := false, tags := [],
       dueDate := some "2025-03-10",
       recurrence := some { frequency := "daily", _rawPattern := some "daily" },
       _rawLine := "- [ ] Pay rent @2025-03-10 daily ^r1" } : KanbanCard).title =
      (parseInlineMetadata
        (extractId (jsTrim "Pay rent @2025-03-10 daily ^r1")).1).1 := by
  exact C10_title_is_metadata_stripped_remainder.1
    ["- [ ] Pay rent @2025-03-10 daily ^r1"] 0 true 0 0
    { id := "r1", title := "Pay rent @2025-03-10 daily", completed := false, tags := [],
      dueDate := some "2025-03-10",
      recurrence := some { frequency := "daily", _rawPattern := some "daily" },
      _rawLine := "- [ ] Pay rent @2025-03-10 daily ^r1" } 0 0 0 false
    "Pay rent @2025-03-10 daily ^r1" (by decide) (by decide)



theorem getDayOfWeek_emod (n : Int) : getDayOfWeek n = (n + 4) % 7 :=
  Int.fmod_eq_emod _ (by norm_num)

theorem mem_day_pairs_le {p : String × Nat} (hm : p ∈ dayNamePairs) : p.2 ≤ 6 := by
  simp only [dayNamePairs, List.mem_cons, List.not_mem_nil, or_false] at hm
  rcases hm with h | h | h | h | h | h | h <;> subst h <;> decide

theorem DAY_NAMES_le_six {d : String} {n : Nat} (h : DAY_NAMES d = some n) : n ≤ 6 := by
  unfold DAY_NAMES at h
  cases hf : dayNamePairs.find? (fun q => q.1 = d) with
  | none => rw [hf] at h; cases h
  | some p =>
    rw [hf] at h
    simp only [Option.map_some', Option.some_inj] at h
    rw [← h]
    exact mem_day_pairs_le (List.mem_of_find?_eq_some hf)

theorem targets_bounds {l : List String} :
    ∀ x ∈ l.filterMap (fun d => (DAY_NAMES d).map Int.ofNat), 0 ≤ x ∧ x ≤ 6 := by
  intro x hx
  rw [List.mem_filterMap] at hx
  obtain ⟨d, _, hfd⟩ := hx
  cases hD : DAY_NAMES d with
  | none => rw [hD] at hfd; cases hfd
  | some n =>
    rw [hD] at hfd
    simp only [Option.map_some', Option.some_inj] at hfd
    subst hfd
    refine ⟨Int.ofNat_nonneg n, ?_⟩
    have := DAY_NAMES_le_six hD
    rw [Int.ofNat_eq_natCast]
    omega

theorem targets_ne_nil {l : List String} (hne : l ≠ [])
    (hv : ∀ d ∈ l, (DAY_NAMES d).isSome) :
    l.filterMap (fun d => (DAY_NAMES d).map Int.ofNat) ≠ [] := by
  cases l with
  | nil => exact absurd rfl hne
  | cons d rest =>
    have hs := hv d (by simp)
    cases hD : DAY_NAMES d with
    | none => rw [hD] at hs; cases hs
    | some n => simp [List.filterMap_cons, hD]

theorem mem_targets_toNat {l : List String} {x : Int} (hx : 0 ≤ x) :
    x ∈ l.filterMap (fun d => (DAY_NAMES d).map Int.ofNat) ↔
      ∃ d ∈ l, DAY_NAMES d = some x.toNat := by
  rw [List.mem_filterMap]
  constructor
  · rintro ⟨d, hd, hfd⟩
    cases hD : DAY_NAMES d with
    | none => rw [hD] at hfd; cases hfd
    | some n =>
      rw [hD] at hfd
      simp only [Option.map_some', Option.some_inj] at hfd
      refine ⟨d, hd, ?_⟩
      rw [hD, ← hfd]
      simp
  · rintro ⟨d, hd, hD⟩
    refine ⟨d, hd, ?_⟩
    rw [hD]
    simp [Int.toNat_of_nonneg hx]

theorem find_gt_sorted {S : List Int} {cur d : Int} (hs : S.Sorted (· ≤ ·))
    (h : S.find? (fun x => cur < x) = some d) :
    d ∈ S ∧ cur < d ∧ ∀ x ∈ S, cur < x → d ≤ x := by
  induction S with
  | nil => cases h
  | cons a rest ih =>
    rw [List.sorted_cons] at hs
    by_cases hca : cur < a
    · rw [List.find?_cons_of_pos _ (by simpa using hca)] at h
      rw [Option.some_inj] at h
      subst h
      refine ⟨by simp, hca, ?_⟩
      intro x hx _
      rcases List.mem_cons.mp hx with rfl | hx
      · exact le_refl _
      · exact hs.1 x hx
    · rw [List.find?_cons_of_neg _ (by simpa using hca)] at h
      obtain ⟨hd, hcd, hmin⟩ := ih hs.2 h
      refine ⟨List.mem_cons_of_mem _ hd, hcd, ?_⟩
      intro x hx hcx
      rcases List.mem_cons.mp hx with rfl | hx
      · exact absurd hcx hca
      · exact hmin x hx hcx


theorem gno_weekly_red (p : RecurrencePattern) (fromDate : Int) (l : List String)
    (hf : p.frequency = "weekly") (hd : p.daysOfWeek = some l) (hne : l ≠ []) :
    getNextOccurrence p fromDate =
      (match (List.insertionSort (· ≤ ·)
          (l.filterMap (fun d => (DAY_NAMES d).map Int.ofNat))).find?
          (fun d => getDayOfWeek fromDate < d) with
       | none => fromDate + (7 - getDayOfWeek fromDate +
           (List.insertionSort (· ≤ ·)
             (l.filterMap (fun d => (DAY_NAMES d).map Int.ofNat))).headD 0)
       | some nextDay => fromDate + (nextDay - getDayOfWeek fromDate)) := by
  have hlen : l.length > 0 := List.length_pos.mpr hne
  unfold getNextOccurrence
  rw [hf, hd]
  simp [hlen]


/-- C6: for a weekly rule with an explicit weekday set, the next occurrence
from any date is the earliest date strictly after it (at most seven days out)
whose weekday belongs to the set, wrapping to the following week when no set
weekday remains strictly later in the from-date's week; in particular
`{monday, friday}` from Friday 2025-01-17 yields Monday 2025-01-20, not the
same Friday. -/
theorem C6_weekly_dayset_next :
    (∀ (p : RecurrencePattern) (fromDate : Int) (l : List String),
      p.frequency = "weekly" → p.daysOfWeek = some l → l ≠ [] →
      (∀ d ∈ l, (DAY_NAMES d).isSome) →
      ∃ k : Int, getNextOccurrence p fromDate = fromDate + k ∧ 1 ≤ k ∧ k ≤ 7 ∧
        (∃ d ∈ l, DAY_NAMES d = some (getDayOfWeek (fromDate + k)).toNat) ∧
        (∀ j : Int, 1 ≤ j → j < k →
          ¬∃ d ∈ l, DAY_NAMES d = some (getDayOfWeek (fromDate + j)).toNat)) ∧
    getNextOccurrence { frequency := "weekly", daysOfWeek := some ["monday", "friday"] }
        (mkDate 2025 1 17) = mkDate 2025 1 20 ∧
    getDayOfWeek (mkDate 2025 1 17) = 5 ∧ getDayOfWeek (mkDate 2025 1 20) = 1 := by
  refine ⟨?_, by decide, by decide, by decide⟩
  intro p fromDate l hf hd hne hv
  have hred := gno_weekly_red p fromDate l hf hd hne
  have hq := getDayOfWeek_emod fromDate
  have hcur0 : 0 ≤ getDayOfWeek fromDate := by rw [hq]; omega
  have hcur7 : getDayOfWeek fromDate < 7 := by rw [hq]; omega
  have hsorted : (List.insertionSort (· ≤ ·)
      (l.filterMap (fun d => (DAY_NAMES d).map Int.ofNat))).Sorted (· ≤ ·) :=
    List.sorted_insertionSort _ _
  have hperm := List.perm_insertionSort (· ≤ ·)
      (l.filterMap (fun d => (DAY_NAMES d).map Int.ofNat))
  have hmemS : ∀ x : Int, x ∈ (List.insertionSort (· ≤ ·)
      (l.filterMap (fun d => (DAY_NAMES d).map Int.ofNat))) ↔
      x ∈ l.filterMap (fun d => (DAY_NAMES d).map Int.ofNat) :=
    fun x => hperm.mem_iff
  have hbound : ∀ x ∈ (List.insertionSort (· ≤ ·)
      (l.filterMap (fun d => (DAY_NAMES d).map Int.ofNat))), 0 ≤ x ∧ x ≤ 6 :=
    fun x hx => targets_bounds x ((hmemS x).mp hx)
  have hSne : (List.insertionSort (· ≤ ·)
      (l.filterMap (fun d => (DAY_NAMES d).map Int.ofNat))) ≠ [] := by
    intro h0
    apply targets_ne_nil hne hv
    have hlen := hperm.length_eq
    rw [h0] at hlen
    exact List.length_eq_zero.mp hlen.symm
  cases hfind : (List.insertionSort (· ≤ ·)
      (l.filterMap (fun d => (DAY_NAMES d).map Int.ofNat))).find?
      (fun d => getDayOfWeek fromDate < d) with
  | some d =>
    rw [hfind] at hred
    obtain ⟨hdS, hcd, hmin⟩ := find_gt_sorted hsorted hfind
    obtain ⟨hd0, hd6⟩ := hbound d hdS
    refine ⟨d - getDayOfWeek fromDate, hred, by omega, by omega, ?_, ?_⟩
    · have hw : getDayOfWeek (fromDate + (d - getDayOfWeek fromDate)) = d := by
        rw [getDayOfWeek_emod]
        omega
      rw [hw]
      exact (mem_targets_toNat hd0).mp ((hmemS d).mp hdS)
    · intro j hj1 hjk hex
      have hw : getDayOfWeek (fromDate + j) = getDayOfWeek fromDate + j := by
        rw [getDayOfWeek_emod]
        omega
      rw [hw] at hex
      have hmem := (mem_targets_toNat (by omega)).mpr hex
      have := hmin _ ((hmemS _).mpr hmem) (by omega)
      omega
  | none =>
    rw [hfind] at hred
    have hnone : ∀ x ∈ (List.insertionSort (· ≤ ·)
        (l.filterMap (fun d => (DAY_NAMES d).map Int.ofNat))),
        ¬ getDayOfWeek fromDate < x := by
      intro x hx
      have := List.find?_eq_none.mp hfind x hx
      simpa using this
    cases hSs : (List.insertionSort (· ≤ ·)
        (l.filterMap (fun d => (DAY_NAMES d).map Int.ofNat))) with
    | nil => exact absurd hSs hSne
    | cons m rest =>
      have hm_mem : m ∈ (List.insertionSort (· ≤ ·)
          (l.filterMap (fun d => (DAY_NAMES d).map Int.ofNat))) := by
        rw [hSs]; simp
      have hminS : ∀ x ∈ (List.insertionSort (· ≤ ·)
          (l.filterMap (fun d => (DAY_NAMES d).map Int.ofNat))), m ≤ x := by
        rw [hSs] at hsorted ⊢
        intro x hx
        rcases List.mem_cons.mp hx with rfl | hx
        · exact le_refl _
        · exact (List.sorted_cons.mp hsorted).1 x hx
      obtain ⟨hm0, hm6⟩ := hbound m hm_mem
      have hmcur : ¬ getDayOfWeek fromDate < m := hnone m hm_mem
      rw [hSs] at hred
      have hhead : (m :: rest).headD (0 : Int) = m := rfl
      rw [hhead] at hred
      refine ⟨7 - getDayOfWeek fromDate + m, hred, by omega, by omega, ?_, ?_⟩
      · have hw : getDayOfWeek (fromDate + (7 - getDayOfWeek fromDate + m)) = m := by
          rw [getDayOfWeek_emod]
          omega
        rw [hw]
        exact (mem_targets_toNat hm0).mp ((hmemS m).mp hm_mem)
      · intro j hj1 hjk hex
        by_cases hcase : getDayOfWeek fromDate + j < 7
        · have hw : getDayOfWeek (fromDate + j) = getDayOfWeek fromDate + j := by
            rw [getDayOfWeek_emod]
            omega
          rw [hw] at hex
          have hmem := (mem_targets_toNat (by omega)).mpr hex
          exact absurd (by omega : getDayOfWeek fromDate < getDayOfWeek fromDate + j)
            (hnone _ ((hmemS _).mpr hmem))
        · have hw : getDayOfWeek (fromDate + j) = getDayOfWeek fromDate + j - 7 := by
            rw [getDayOfWeek_emod]
            omega
          rw [hw] at hex
          have hmem := (mem_targets_toNat (by omega)).mpr hex
          have := hminS _ ((hmemS _).mpr hmem)
          omega

/-- Witness for C6: weekday set `{monday, friday}` from Friday 2025-01-17
(day number 20105); the next occurrence is 20108, Monday 2025-01-20, three
days later. -/
theorem C6_weekly_dayset_next_witness :
    getNextOccurrence { frequency := "weekly", daysOfWeek := some ["monday", "friday"] }
        (mkDate 2025 1 17) = mkDate 2025 1 20 ∧
    (∃ k : Int,
      getNextOccurrence
          { frequency := "weekly", daysOfWeek := some ["monday", "friday"] }
          (mkDate 2025 1 17) =
          mkDate 2025 1 17 + k ∧ 1 ≤ k ∧ k ≤ 7 ∧
      (∃ d ∈ ["monday", "friday"], DAY_NAMES d =
        some (getDayOfWeek (mkDate 2025 1 17 + k)).toNat) ∧
      (∀ j : Int, 1 ≤ j → j < k →
        ¬∃ d ∈ ["monday", "friday"], DAY_NAMES d =
          some (getDayOfWeek (mkDate 2025 1 17 + j)).toNat)) := by
  refine ⟨by decide, ?_⟩
  exact C6_weekly_dayset_next.1
    { frequency := "weekly", daysOfWeek := some ["monday", "friday"] }
    (mkDate 2025 1 17) ["monday", "friday"] rfl rfl (by decide) (by decide)



/-- C1 counterexample: `parseKanbanBoard` succeeds on the empty document (it
is total), yet re-serializing produces a generated frontmatter block, not the
empty string — round-trip byte equality fails. -/
theorem C1_roundtrip_counterexample :
    serializeKanbanBoard (parseKanbanBoard "" 0 0) =
      "---\nkanban-plugin: basic\n---\n\n" ∧
    ¬serializeKanbanBoard (parseKanbanBoard "" 0 0) = "" := by
  exact ⟨by decide, by decide⟩

/-- C1 amended: round-trip byte equality holds for the documents that consist
of nothing but a frontmatter block containing the `kanban-plugin` marker key
(the frontmatter regex consumes the whole document and the serializer
re-emits it unchanged); it does not hold for documents in general. -/
theorem C1_roundtrip_frontmatter_only :
    ∀ (d : String) (today : Int) (ctr : Nat),
      extractFrontmatter d = (d, "") →
      jsIncludes d FRONTMATTER_KEY = true →
      serializeKanbanBoard (parseKanbanBoard d today ctr) = d := by
  intro d today ctr hef hinc
  have hne : ¬d = "" := by
    intro h0
    subst h0
    exact absurd hinc (by decide)
  have hp : parseKanbanBoard d today ctr =
      { lanes := [], archive := [], settings := Json.obj [], _frontmatter := d,
        _headerContent := "", _footerContent := "", _preSettingsContent := "" } := by
    unfold parseKanbanBoard
    rw [hef]
    rfl
  have hens : ensureKanbanFrontmatter d = d := by
    unfold ensureKanbanFrontmatter
    rw [if_neg hne]
    simp [hinc]
  rw [hp]
  unfold serializeKanbanBoard
  simp only [hens]
  norm_num
  rfl

/-- Witness for C1's amended statement at the minimal marker-bearing
document. -/
theorem C1_roundtrip_frontmatter_only_witness :
    serializeKanbanBoard (parseKanbanBoard "---\nkanban-plugin: basic\n---\n" 0 0) =
      "---\nkanban-plugin: basic\n---\n" := by
  exact C1_roundtrip_frontmatter_only "---\nkanban-plugin: basic\n---\n" 0 0
    (by decide) (by decide)



/-- The settings-block payload of a document's body (what `parseSettings`
hands to `JSON.parse`). -/
def settingsPayload (md : String) : Option String :=
  parseSettingsScan ((extractFrontmatter md).2.data.length + 1) (extractFrontmatter md).2.data

/-- C9: whenever the configuration block's JSON payload fails to decode, the
parse still returns (no exception escapes — the model is total) with an empty
settings record; on a concrete document whose malformed block sits between
two lane sections — "## Todo" starts at body index 0, the block spans body
indices 24 to 62, and "## Done" starts at body index 63, strictly after the
block — both the lane before and the lane after the block are still parsed
with their cards. -/
theorem C9_malformed_settings :
    (∀ (md p : String) (today : Int) (ctr : Nat),
      settingsPayload md = some p →
      jsonParse p = none →
      (parseKanbanBoard md today ctr).settings = Json.obj []) ∧
    ((parseKanbanBoard "---\nkanban-plugin: basic\n---\n## Todo ^l1\n- [ ] A ^c1\n%% kanban:settings\n```json\n\x7bbad\n```\n%%\n## Done ^l2\n- [x] B ^c2\n" 0 0).lanes.map
        (fun l => (l.title, l.cards.map (fun c => c.title))) =
      [("Todo", ["A"]), ("Done", ["B"])] ∧
     (parseKanbanBoard "---\nkanban-plugin: basic\n---\n## Todo ^l1\n- [ ] A ^c1\n%% kanban:settings\n```json\n\x7bbad\n```\n%%\n## Done ^l2\n- [x] B ^c2\n" 0 0).settings =
      Json.obj [] ∧
     jsonParse "\x7bbad" = none ∧
     settingsBlockSpan (extractFrontmatter "---\nkanban-plugin: basic\n---\n## Todo ^l1\n- [ ] A ^c1\n%% kanban:settings\n```json\n\x7bbad\n```\n%%\n## Done ^l2\n- [x] B ^c2\n").2 =
      some (24, 62) ∧
     (laneMatches (extractFrontmatter "---\nkanban-plugin: basic\n---\n## Todo ^l1\n- [ ] A ^c1\n%% kanban:settings\n```json\n\x7bbad\n```\n%%\n## Done ^l2\n- [x] B ^c2\n").2).map
        (fun m => m.1) =
      [0, 63]) := by
  refine ⟨?_, by decide, by rfl, by rfl, by decide, by decide⟩
  intro md p today ctr hsp hjp
  unfold settingsPayload at hsp
  unfold parseKanbanBoard
  rcases hef : extractFrontmatter md with ⟨fm, body⟩
  rw [hef] at hsp
  dsimp only [] at hsp ⊢
  unfold parseSettings
  rw [hsp]
  dsimp only []
  rw [hjp]
  rfl

/-- Witness for C9's universal part on the document whose malformed block
sits between the two lanes. -/
theorem C9_malformed_settings_witness :
    settingsPayload "---\nkanban-plugin: basic\n---\n## Todo ^l1\n- [ ] A ^c1\n%% kanban:settings\n```json\n\x7bbad\n```\n%%\n## Done ^l2\n- [x] B ^c2\n" =
      some "\x7bbad" ∧
    jsonParse "\x7bbad" = none ∧
    (parseKanbanBoard "---\nkanban-plugin: basic\n---\n## Todo ^l1\n- [ ] A ^c1\n%% kanban:settings\n```json\n\x7bbad\n```\n%%\n## Done ^l2\n- [x] B ^c2\n" 0 0).settings =
      Json.obj [] := by
  refine ⟨by decide, by rfl, ?_⟩
  exact C9_malformed_settings.1
    "---\nkanban-plugin: basic\n---\n## Todo ^l1\n- [ ] A ^c1\n%% kanban:settings\n```json\n\x7bbad\n```\n%%\n## Done ^l2\n- [x] B ^c2\n"
    "\x7bbad" 0 0 (by decide) (by rfl)

end BaseKanban
